import Mathlib

/-!
Formal model of the sitemap-scout discovery and frontier-assembly engine.

The TypeScript sources (src/tools/utils.ts, src/tools/list.ts,
src/tools/discover.ts, src/tools/frontier.ts) are shallowly embedded as
executable Lean definitions.  Network fetches, gzip inflation and XML
parsing are external collaborators of the engine; they are modelled by an
oracle world: a finite association list from URL to fetch outcome, where a
successful outcome carries the decoded body text together with the entry
lists extracted from it by the XML parser.  JavaScript strings on the
cursor path are modelled at the byte level (their UTF-8 encoding), and
JavaScript numbers as integers.
-/

namespace SitemapScout

/-! ## Bytes and small helpers -/

/-- Code points of a string literal, used for ASCII byte templates. -/
def strBytes (s : String) : List Nat := s.data.map Char.toNat

/-! ## base64url (Node `Buffer.prototype.toString "base64url"` and
`Buffer.from(-, "base64url")`)

Encoding is unpadded base64url.  Node's decoder skips characters outside
the alphabet, consumes groups of four characters, and drops an incomplete
trailing group of one character (two or three trailing characters yield
one or two bytes). -/

/-- Character of a six-bit value in the base64url alphabet. -/
def b64Char (i : Nat) : Char :=
  if i < 26 then Char.ofNat (65 + i)
  else if i < 52 then Char.ofNat (97 + (i - 26))
  else if i < 62 then Char.ofNat (48 + (i - 52))
  else if i = 62 then '-'
  else '_'

/-- Six-bit value of a base64url alphabet character, none otherwise. -/
def b64Val (c : Char) : Option Nat :=
  if 'A' ≤ c ∧ c ≤ 'Z' then some (c.toNat - 65)
  else if 'a' ≤ c ∧ c ≤ 'z' then some (c.toNat - 97 + 26)
  else if '0' ≤ c ∧ c ≤ '9' then some (c.toNat - 48 + 52)
  else if c = '-' then some 62
  else if c = '_' then some 63
  else none

/-- Unpadded base64url encoding of a byte list. -/
def base64urlEncode : List Nat → List Char
  | [] => []
  | [a] => [b64Char (a / 4), b64Char (a % 4 * 16)]
  | [a, b] => [b64Char (a / 4), b64Char (a % 4 * 16 + b / 16), b64Char (b % 16 * 4)]
  | a :: b :: c :: rest =>
      b64Char (a / 4) :: b64Char (a % 4 * 16 + b / 16) ::
        b64Char (b % 16 * 4 + c / 64) :: b64Char (c % 64) :: base64urlEncode rest

/-- Byte reassembly from six-bit values, groups of four with Node's
treatment of a short trailing group. -/
def b64Groups : List Nat → List Nat
  | [] => []
  | [_] => []
  | [x, y] => [x * 4 + y / 16]
  | [x, y, z] => [x * 4 + y / 16, y % 16 * 16 + z / 4]
  | x :: y :: z :: w :: rest =>
      (x * 4 + y / 16) :: (y % 16 * 16 + z / 4) :: (z % 4 * 64 + w) :: b64Groups rest

/-- Node-style base64url decoding: non-alphabet characters are skipped. -/
def base64urlDecode (s : List Char) : List Nat := b64Groups (s.filterMap b64Val)

/-! ## JSON fragment (JSON.stringify / JSON.parse on cursor payloads)

The JSON collaborator is modelled on the fragment the cursor code
exercises: top-level numbers, strings, and flat objects whose values are
numbers or strings.  Inputs outside the fragment (nested containers,
fractional or exponent number forms, literals) make the model parser fail
where JSON.parse may succeed; no theorem below evaluates such an input. -/

/-- Parsed JSON value (fragment used by cursor payloads). -/
inductive JVal where
  | num (n : Int)
  | str (bytes : List Nat)
  | obj (fields : List (List Nat × JVal))

/-- Lowercase hex digit byte of a value below sixteen. -/
def hexDigitByte (d : Nat) : Nat := if d < 10 then 48 + d else 87 + d

/-- JSON.stringify escaping of one string byte: quote, backslash, the
short control escapes, unicode escapes for other control bytes; all other
bytes pass through. -/
def jsonEscapeByte (b : Nat) : List Nat :=
  if b = 34 then [92, 34]
  else if b = 92 then [92, 92]
  else if b = 8 then [92, 98]
  else if b = 9 then [92, 116]
  else if b = 10 then [92, 110]
  else if b = 12 then [92, 102]
  else if b = 13 then [92, 114]
  else if b < 32 then [92, 117, 48, 48, hexDigitByte (b / 16), hexDigitByte (b % 16)]
  else [b]

/-- JSON.stringify escaping of a byte string. -/
def jsonEscape : List Nat → List Nat
  | [] => []
  | b :: bs => jsonEscapeByte b ++ jsonEscape bs

/-- Little-endian decimal digits with explicit recursion budget. -/
def natDigitsAux : Nat → Nat → List Nat
  | 0, _ => []
  | _ + 1, 0 => []
  | fuel + 1, n + 1 => (n + 1) % 10 :: natDigitsAux fuel ((n + 1) / 10)

/-- Little-endian decimal digits of a natural number (empty for zero). -/
def natDigitsLE (n : Nat) : List Nat := natDigitsAux n n

/-- ASCII decimal representation of a natural number. -/
def natDigitBytes (n : Nat) : List Nat :=
  if n = 0 then [48] else (natDigitsLE n).reverse.map (fun d => 48 + d)

/-- ASCII decimal representation of an integer (JSON number printing for
integral values). -/
def intDigitBytes (n : Int) : List Nat :=
  if n < 0 then 45 :: natDigitBytes (-n).toNat else natDigitBytes n.toNat

/-- Whitespace bytes accepted by JSON.parse. -/
def isWsByte (b : Nat) : Bool := b = 32 || b = 9 || b = 10 || b = 13

/-- Skip JSON whitespace. -/
def skipWs (bs : List Nat) : List Nat := bs.dropWhile isWsByte

/-- Hex digit value of a byte. -/
def hexVal (b : Nat) : Option Nat :=
  if 48 ≤ b ∧ b ≤ 57 then some (b - 48)
  else if 97 ≤ b ∧ b ≤ 102 then some (b - 87)
  else if 65 ≤ b ∧ b ≤ 70 then some (b - 55)
  else none

/-- UTF-8 bytes of a code point below 2^16 (for unicode escapes). -/
def utf8Bytes (n : Nat) : List Nat :=
  if n < 128 then [n]
  else if n < 2048 then [192 + n / 64, 128 + n % 64]
  else [224 + n / 4096, 128 + n / 64 % 64, 128 + n % 64]

/-- Escape value of a single-character JSON escape, none when the
character is not a valid simple escape. -/
def simpleEscape (e : Nat) : Option Nat :=
  if e = 34 then some 34
  else if e = 92 then some 92
  else if e = 47 then some 47
  else if e = 98 then some 8
  else if e = 102 then some 12
  else if e = 110 then some 10
  else if e = 114 then some 13
  else if e = 116 then some 9
  else none

/-- JSON string body: bytes after the opening quote, up to and consuming
the closing quote.  Returns the decoded bytes and the remaining input. -/
def parseStringBody : List Nat → Option (List Nat × List Nat)
  | [] => none
  | b :: rest =>
      if b = 34 then some ([], rest)
      else if b = 92 then
        match rest with
        | [] => none
        | e :: rest2 =>
            if e = 117 then
              match rest2 with
              | h1 :: h2 :: h3 :: h4 :: rest3 =>
                  match hexVal h1, hexVal h2, hexVal h3, hexVal h4 with
                  | some x1, some x2, some x3, some x4 =>
                      (parseStringBody rest3).map
                        (fun p => (utf8Bytes (x1 * 4096 + x2 * 256 + x3 * 16 + x4) ++ p.1, p.2))
                  | _, _, _, _ => none
              | _ => none
            else
              match simpleEscape e with
              | some v => (parseStringBody rest2).map (fun p => (v :: p.1, p.2))
              | none => none
      else if b < 32 then none
      else (parseStringBody rest).map (fun p => (b :: p.1, p.2))

/-- Digit byte test. -/
def isDigitByte (b : Nat) : Bool := 48 ≤ b && b ≤ 57

/-- Value of a big-endian ASCII digit run. -/
def digitsVal (ds : List Nat) : Nat := ds.foldl (fun a d => a * 10 + (d - 48)) 0

/-- Nonnegative JSON integer: a nonempty digit run without a redundant
leading zero. -/
def parseNatBytes (bs : List Nat) : Option (Nat × List Nat) :=
  let ds := bs.takeWhile isDigitByte
  let rest := bs.dropWhile isDigitByte
  if ds.isEmpty then none
  else if 1 < ds.length ∧ ds.head? = some 48 then none
  else some (digitsVal ds, rest)

/-- JSON integer with optional leading minus. -/
def parseNumberBytes (bs : List Nat) : Option (Int × List Nat) :=
  if bs.head? = some 45 then (parseNatBytes bs.tail).map (fun p => (-(p.1 : Int), p.2))
  else (parseNatBytes bs).map (fun p => ((p.1 : Int), p.2))

/-- Scalar JSON value: a string or an integer. -/
def parseScalar (bs : List Nat) : Option (JVal × List Nat) :=
  if bs.head? = some 34 then (parseStringBody bs.tail).map (fun p => (JVal.str p.1, p.2))
  else (parseNumberBytes bs).map (fun p => (JVal.num p.1, p.2))

/-- Members of a flat JSON object, after the opening brace.  The budget
bounds the number of members. -/
def parseMembers : Nat → List Nat → Option (List (List Nat × JVal) × List Nat)
  | 0, _ => none
  | fuel + 1, bs =>
      let s := skipWs bs
      if s.head? = some 34 then
        match parseStringBody s.tail with
        | none => none
        | some (key, r1) =>
            let s1 := skipWs r1
            if s1.head? = some 58 then
              match parseScalar (skipWs s1.tail) with
              | none => none
              | some (v, r3) =>
                  let s3 := skipWs r3
                  if s3.head? = some 44 then
                    (parseMembers fuel s3.tail).map (fun p => ((key, v) :: p.1, p.2))
                  else if s3.head? = some 125 then some ([(key, v)], s3.tail)
                  else none
            else none
      else none

/-- Top-level JSON value of the fragment. -/
def parseTopValue (bs : List Nat) : Option (JVal × List Nat) :=
  let s := skipWs bs
  if s.head? = some 123 then
    let s1 := skipWs s.tail
    if s1.head? = some 125 then some (JVal.obj [], s1.tail)
    else (parseMembers (s.tail.length + 1) s.tail).map (fun p => (JVal.obj p.1, p.2))
  else parseScalar s

/-- JSON.parse on the fragment: one value, then only trailing whitespace. -/
def jsonParseBytes (bs : List Nat) : Option JVal :=
  match parseTopValue bs with
  | some (v, rest) => if skipWs rest = [] then some v else none
  | none => none

/-! ## Cursor encoding (src/tools/utils.ts, encodeCursor / decodeCursor) -/

/-- Payload accepted by the source `encodeCursor`: an offset and an
optional sitemap URL (modelled as its UTF-8 bytes). -/
structure CursorData where
  offset : Int
  sitemap_url : Option (List Nat) := none

/-- JSON.stringify bytes of a cursor payload, field order as in the
source object literal. -/
def cursorJsonBytes (c : CursorData) : List Nat :=
  strBytes "\x7b\"offset\":" ++ intDigitBytes c.offset ++
    (match c.sitemap_url with
     | none => []
     | some u => strBytes ",\"sitemap_url\":\"" ++ jsonEscape u ++ [34]) ++ [125]

/-- The JSON value the source payload object denotes. -/
def cursorToJVal (c : CursorData) : JVal :=
  JVal.obj ((strBytes "offset", JVal.num c.offset) ::
    (match c.sitemap_url with
     | none => []
     | some u => [(strBytes "sitemap_url", JVal.str u)]))

/-- `encodeCursor` (utils.ts line 101): base64url of the JSON text. -/
def encodeCursor (c : CursorData) : String :=
  String.mk (base64urlEncode (cursorJsonBytes c))

/-- `decodeCursor` (utils.ts line 108): base64url decoding followed by
JSON.parse, with any failure mapped to none (the catch branch). -/
def decodeCursor (s : String) : Option JVal :=
  jsonParseBytes (base64urlDecode s.data)

/-! ## URL utilities (src/tools/utils.ts) -/

/-- Character list of a string literal. -/
def strChars (s : String) : List Char := s.data

/-- Does the second list start with the first one? -/
def charsStartWith : List Char → List Char → Bool
  | [], _ => true
  | _ :: _, [] => false
  | a :: as, b :: bs => a = b && charsStartWith as bs

/-- Substring containment, the model of `String.prototype.includes`. -/
def containsSub (sub l : List Char) : Bool :=
  (List.range (l.length + 1)).any (fun k => charsStartWith sub (l.drop k))

/-- Lowercased characters. -/
def lowerChars (l : List Char) : List Char := l.map Char.toLower

/-- Whitespace trim on both ends (`String.prototype.trim`). -/
def trimChars (cs : List Char) : List Char :=
  ((cs.dropWhile Char.isWhitespace).reverse.dropWhile Char.isWhitespace).reverse

/-- Split on newline characters (`String.prototype.split "\n"`). -/
def splitLinesAux : List Char → List Char → List (List Char)
  | [], acc => [acc.reverse]
  | c :: rest, acc =>
      if c = '\n' then acc.reverse :: splitLinesAux rest []
      else splitLinesAux rest (c :: acc)

/-- Lines of a text. -/
def splitLines (cs : List Char) : List (List Char) := splitLinesAux cs []

/-- Case-insensitive version of `charsStartWith`. -/
def startsWithCI (sub l : List Char) : Bool :=
  charsStartWith (lowerChars sub) (lowerChars l)

/-- `isValidUrl` (utils.ts line 34): the URL must parse absolutely with an
http or https scheme.  The WHATWG URL collaborator is modelled as: a
case-insensitive `http://` or `https://` prefix followed by a nonempty
host segment. -/
def isValidUrl (url : String) : Bool :=
  let cs := url.data
  if startsWithCI (strChars "http://") cs then
    !((cs.drop 7).takeWhile (fun c => c ≠ '/')).isEmpty
  else if startsWithCI (strChars "https://") cs then
    !((cs.drop 8).takeWhile (fun c => c ≠ '/')).isEmpty
  else false

/-- `normalizeUrl` (utils.ts line 46): trim, prepend `https://` when no
http(s) prefix is present, then validate. -/
def normalizeUrl (url : String) : Option String :=
  let t := trimChars url.data
  let normalized :=
    if startsWithCI (strChars "http://") t || startsWithCI (strChars "https://") t
    then String.mk t else String.mk (strChars "https://" ++ t)
  if isValidUrl normalized then some normalized else none

/-- Origin of a validated URL: lowercased scheme and host, path dropped.
(The collaborator also strips a default port; no claim exercises ports.) -/
def origin (url : String) : String :=
  let cs := url.data
  if startsWithCI (strChars "http://") cs then
    String.mk (lowerChars (cs.take 7) ++ lowerChars ((cs.drop 7).takeWhile (fun c => c ≠ '/')))
  else if startsWithCI (strChars "https://") cs then
    String.mk (lowerChars (cs.take 8) ++ lowerChars ((cs.drop 8).takeWhile (fun c => c ≠ '/')))
  else url

/-! ## Pattern matching (utils.ts, matchesPattern)

The source escapes every regex metacharacter except `*` (turned into
`.*`) and `?` (left alone), compiles `^pattern$` with the `i` flag, and on
a regex compile error falls back to substring containment of the pattern
with `*` stripped.  The generated regexes therefore consist of literal
atoms, `.*`, and `?`; a `?` quantifies the preceding atom (or turns the
preceding quantifier lazy, which does not change acceptance), and is a
compile error at the start or after a lazy quantifier. -/

/-- Token of the generated regex source. -/
inductive RTok where
  | lit (c : Char)
  | star
  | quest

/-- Tokenization of a pattern: `*` and `?` pass through, everything else
is (escaped to) a literal. -/
def tokenizePattern (p : List Char) : List RTok :=
  p.map (fun c => if c = '*' then RTok.star else if c = '?' then RTok.quest else RTok.lit c)

/-- Element of the compiled matcher. -/
inductive RElem where
  | lit (c : Char)
  | dotStar
  | optLit (c : Char)

/-- Pending last regex element during compilation, tracking what a
following `?` would attach to. -/
inductive RPend where
  | none0
  | pLit (c : Char)
  | pStar
  | pOptLit (c : Char)
  | pLazyStar
  | pLazyOpt (c : Char)

/-- Elements denoted by the pending state. -/
def pendElems : RPend → List RElem
  | .none0 => []
  | .pLit c => [.lit c]
  | .pStar => [.dotStar]
  | .pOptLit c => [.optLit c]
  | .pLazyStar => [.dotStar]
  | .pLazyOpt c => [.optLit c]

/-- Regex compilation with JS validity: `?` after nothing or after an
already-lazy quantifier is a SyntaxError (none). -/
def compileAux : List RTok → List RElem → RPend → Option (List RElem)
  | [], acc, st => some (acc ++ pendElems st)
  | .lit c :: ts, acc, st => compileAux ts (acc ++ pendElems st) (.pLit c)
  | .star :: ts, acc, st => compileAux ts (acc ++ pendElems st) .pStar
  | .quest :: ts, acc, st =>
      match st with
      | .pLit c => compileAux ts acc (.pOptLit c)
      | .pStar => compileAux ts acc .pLazyStar
      | .pOptLit c => compileAux ts acc (.pLazyOpt c)
      | _ => none

/-- Compiled matcher of a pattern, none when `new RegExp` throws. -/
def compilePattern (p : List Char) : Option (List RElem) :=
  compileAux (tokenizePattern p) [] .none0

/-- Case-insensitive character comparison (the `i` flag). -/
def chEqCI (a b : Char) : Bool := a.toLower = b.toLower

/-- JavaScript line terminators, which `.` does not match (the regex is
compiled with the `i` flag only, not `s`). -/
def isLineTerm (c : Char) : Bool :=
  c = '\n' || c = '\r' || c = '\u2028' || c = '\u2029'

/-- Acceptance of the compiled, fully anchored regex; `.*` matches any
run of non-line-terminator characters. -/
def reMatch : List RElem → List Char → Bool
  | [], s => s.isEmpty
  | .lit c :: es, s =>
      match s with
      | [] => false
      | d :: ds => chEqCI c d && reMatch es ds
  | .optLit c :: es, s =>
      reMatch es s ||
        (match s with
         | [] => false
         | d :: ds => chEqCI c d && reMatch es ds)
  | .dotStar :: es, s =>
      (List.range (s.length + 1)).any (fun k =>
        (s.take k).all (fun c => !(isLineTerm c)) && reMatch es (s.drop k))

/-- `matchesPattern` (utils.ts line 83). -/
def matchesPattern (url pattern : String) : Bool :=
  match compilePattern pattern.data with
  | some elems => reMatch elems url.data
  | none => containsSub (pattern.data.filter (fun c => c ≠ '*')) url.data

/-- Glob matching as the specification words it: `*` matches any run of
characters including the empty run, every other pattern character matches
itself literally, case-insensitively, anchored at both ends.  Stated from
the spec for comparison with `matchesPattern`. -/
def globMatchCI : List Char → List Char → Bool
  | [], s => s.isEmpty
  | p :: ps, s =>
      if p = '*' then (List.range (s.length + 1)).any (fun k => globMatchCI ps (s.drop k))
      else
        match s with
        | [] => false
        | c :: cs => chEqCI p c && globMatchCI ps cs

/-! ## JavaScript array slice -/

/-- `Array.prototype.slice(start, end)` over integer arguments: negative
indices count from the end, both are clamped to the array bounds. -/
def jsSlice {α : Type} (l : List α) (s e : Int) : List α :=
  let len : Int := l.length
  let s2 := if s < 0 then max (len + s) 0 else min s len
  let e2 := if e < 0 then max (len + e) 0 else min e len
  (l.drop s2.toNat).take (e2 - s2).toNat

/-! ## Response envelope (src/types.ts) -/

/-- Error codes of the response envelope. -/
inductive ErrorCode where
  | INVALID_INPUT
  | UPSTREAM_ERROR
  | RATE_LIMITED
  | TIMEOUT
  | PARSE_ERROR
  | INTERNAL_ERROR
  deriving DecidableEq

/-- Success metadata (`retrieved_at` is a wall-clock collaborator and is
not modelled).  `pagination = some nc` models a pagination object whose
`next_cursor` is `nc`. -/
structure ResponseMeta where
  source : Option String := none
  pagination : Option (Option String) := none
  warnings : List String := []
  deriving DecidableEq

/-- Tagged success/error envelope. -/
inductive Response (α : Type) where
  | ok (data : α) (meta : ResponseMeta)
  | err (code : ErrorCode) (message : String)

/-- Is the response an INVALID_INPUT failure? -/
def Response.isInvalidInput {α : Type} : Response α → Bool
  | .err .INVALID_INPUT _ => true
  | _ => false

/-- Is the response a success? -/
def Response.isOk {α : Type} : Response α → Bool
  | .ok _ _ => true
  | _ => false

/-! ## Fetch/parse oracle world

A world is a finite association list from URL to fetch outcome.  A
success carries the decoded body text and, for the XML collaborator, the
outcome of `parseSitemapContent` on that text: entry list, index flag and
child URL list, or none when the XML parser throws. -/

/-- One `<url>` record as extracted by `parseSitemapContent`. -/
structure SitemapEntry where
  loc : String
  lastmod : Option String := none
  changefreq : Option String := none
  priority : Option String := none
  deriving DecidableEq

/-- Result of `parseSitemapContent` (list.ts line 35). -/
structure SitemapDoc where
  urls : List SitemapEntry
  isIndex : Bool
  indexUrls : List String
  deriving DecidableEq

/-- Outcome of fetching one URL. -/
inductive FetchOutcome where
  | success (content : List Char) (parsed : Option SitemapDoc)
  | httpError
  | timeout
  deriving DecidableEq

/-- The oracle world. -/
abbrev World := List (String × FetchOutcome)

/-- Outcome of a URL in the world; none models a network-level rejection
of an unknown URL. -/
def worldFetch (w : World) (url : String) : Option FetchOutcome :=
  (w.find? (fun p => p.1 == url)).map Prod.snd

/-- Failure modes of `fetchSitemap` (list.ts line 87). -/
inductive FetchErr where
  | timeout
  | http
  | parse
  | network
  deriving DecidableEq

/-- `fetchSitemap`: timeout-bounded GET, non-2xx throws `HTTP ...`,
the body is parsed by `parseSitemapContent` (the parse oracle). -/
def fetchSitemap (w : World) (url : String) : Except FetchErr SitemapDoc :=
  match worldFetch w url with
  | some (.success _ (some doc)) => .ok doc
  | some (.success _ none) => .error .parse
  | some .httpError => .error .http
  | some .timeout => .error .timeout
  | none => .error .network

/-! ## list_sitemap_urls (src/tools/list.ts) -/

/-- Success payload of `list_sitemap_urls`. -/
structure ListSitemapUrlsData where
  sitemap_url : String
  urls : List SitemapEntry
  total_in_page : Nat
  is_index : Bool
  deriving DecidableEq

/-- Error code classification of the catch branch (list.ts line 182). -/
def listErrCode : FetchErr → ErrorCode
  | .timeout => .TIMEOUT
  | .http => .UPSTREAM_ERROR
  | .parse => .PARSE_ERROR
  | .network => .UPSTREAM_ERROR

/-- Message of the catch branch (non-timeout texts abbreviated; no claim
inspects them). -/
def listErrMsg (e : FetchErr) (url : String) : String :=
  match e with
  | .timeout => "Request timed out while fetching sitemap: " ++ url
  | .http => "HTTP error"
  | .parse => "Failed to parse sitemap XML"
  | .network => "fetch failed"

/-- The `offset` property of a decoded cursor, when it is a number. -/
def jvalOffset : JVal → Option Int
  | .obj fields =>
      match fields.find? (fun f => f.1 == strBytes "offset") with
      | some (_, .num n) => some n
      | _ => none
  | _ => none

/-- `listSitemapUrls` (list.ts line 119).  A decoded cursor without a
numeric `offset` property makes the slice run with an undefined start and
a NaN end: an empty page and no next cursor. -/
def listSitemapUrls (w : World) (sitemapUrl : String) (limit : Option Int)
    (cursor : Option String) : Response ListSitemapUrlsData :=
  if sitemapUrl = "" then
    .err .INVALID_INPUT "sitemap_url is required and must be a string"
  else if !isValidUrl sitemapUrl then
    .err .INVALID_INPUT "Invalid sitemap URL format. Please provide a valid HTTP or HTTPS URL."
  else
    let pageLimit : Int := min (max 1 (limit.getD 100)) 1000
    match
      (match cursor with
       | some c =>
           if c ≠ "" then
             match decodeCursor c with
             | none => Except.error (Response.err (α := ListSitemapUrlsData) .INVALID_INPUT "Invalid cursor format")
             | some j => Except.ok (jvalOffset j)
           else Except.ok (some (0 : Int))
       | none => Except.ok (some (0 : Int))) with
    | .error e => e
    | .ok offsetOpt =>
        match fetchSitemap w sitemapUrl with
        | .error fe => .err (listErrCode fe) (listErrMsg fe sitemapUrl)
        | .ok doc =>
            match offsetOpt with
            | some offset =>
                let paginated := jsSlice doc.urls offset (offset + pageLimit)
                let hasMore := offset + pageLimit < (doc.urls.length : Int)
                let nextCursor :=
                  if hasMore then some (encodeCursor ⟨offset + pageLimit, none⟩) else none
                .ok ⟨sitemapUrl, paginated, paginated.length, doc.isIndex⟩
                  ⟨some sitemapUrl, some nextCursor, []⟩
            | none =>
                .ok ⟨sitemapUrl, [], 0, doc.isIndex⟩ ⟨some sitemapUrl, some none, []⟩

/-! ## discover_sitemaps (src/tools/discover.ts)

Every function returns its result together with the list of URLs it
fetched, in fetch order, so that network activity is observable. -/

/-- Kind of a discovered sitemap. -/
inductive SitemapType where
  | sitemap
  | sitemap_index
  deriving DecidableEq

/-- Provenance of a discovered sitemap. -/
inductive DiscoveredFrom where
  | robots_txt
  | standard_location
  | sitemap_index
  deriving DecidableEq

/-- One discovered sitemap. -/
structure DiscoveredSitemap where
  url : String
  type : SitemapType
  discovered_from : DiscoveredFrom
  deriving DecidableEq

/-- `checkSitemap` (discover.ts line 28): fetch; non-2xx or any failure
yields none; a 2xx body is classified by the raw substring
`<sitemapindex`. -/
def checkSitemap (w : World) (url : String) (df : DiscoveredFrom) :
    Option DiscoveredSitemap × List String :=
  match worldFetch w url with
  | some (.success content _) =>
      let isIdx := containsSub (strChars "<sitemapindex") content ||
        containsSub (strChars "<sitemapindex>") content
      (some ⟨url, if isIdx then .sitemap_index else .sitemap, df⟩, [url])
  | some .httpError => (none, [url])
  | some .timeout => (none, [url])
  | none => (none, [url])

/-- Sitemap directives of a robots.txt body (discover.ts line 88): per
line, case-insensitive `sitemap:` after leading whitespace, the remainder
trimmed, kept when it validates. -/
def robotsDirectives (content : List Char) : List String :=
  (splitLines content).filterMap (fun line =>
    let t := line.dropWhile Char.isWhitespace
    if startsWithCI (strChars "sitemap:") t then
      let candidate := String.mk (trimChars (t.drop 8))
      if isValidUrl candidate then some candidate else none
    else none)

/-- `parseSitemapsFromRobotsTxt` (discover.ts line 71). -/
def parseSitemapsFromRobotsTxt (w : World) (robotsTxtUrl : String) :
    (List String × Bool) × List String :=
  match worldFetch w robotsTxtUrl with
  | some (.success content _) => ((robotsDirectives content, true), [robotsTxtUrl])
  | some .httpError => (([], false), [robotsTxtUrl])
  | some .timeout => (([], false), [robotsTxtUrl])
  | none => (([], false), [robotsTxtUrl])

/-- Traversal state: found sitemaps, visited set, fetch log. -/
abbrev DiscState := List DiscoveredSitemap × List String × List String

/-- One step of the loop over the child entries of one index document
(discover.ts line 149): a valid, unvisited child is probed by
`checkSitemap`; a child classified as an index is expanded recursively. -/
def discoverChildStep (w : World) (expandF : String → List String → DiscState)
    (st : DiscState) (loc : String) : DiscState :=
  if isValidUrl loc ∧ loc ∉ st.2.1 then
    match checkSitemap w loc .sitemap_index with
    | (some sm, lg) =>
        if sm.type = .sitemap_index then
          let r := expandF loc st.2.1
          (st.1 ++ [sm] ++ r.1, r.2.1, st.2.2 ++ lg ++ r.2.2)
        else (st.1 ++ [sm], st.2.1, st.2.2 ++ lg)
    | (none, lg) => (st.1, st.2.1, st.2.2 ++ lg)
  else st

/-- `discoverFromSitemapIndex` (discover.ts line 109).  The recursion
budget models the call stack; the visited guard makes any budget of at
least the world size sufficient. -/
def discoverFromSitemapIndex (w : World) : Nat → String → List String → DiscState
  | 0, _, visited => ([], visited, [])
  | fuel + 1, indexUrl, visited =>
      if indexUrl ∈ visited then ([], visited, [])
      else
        let visited1 := indexUrl :: visited
        match worldFetch w indexUrl with
        | some (.success _ (some doc)) =>
            if doc.isIndex then
              doc.indexUrls.foldl
                (discoverChildStep w (fun u v => discoverFromSitemapIndex w fuel u v))
                ([], visited1, [indexUrl])
            else ([], visited1, [indexUrl])
        | some (.success _ none) => ([], visited1, [indexUrl])
        | some .httpError => ([], visited1, [indexUrl])
        | some .timeout => ([], visited1, [indexUrl])
        | none => ([], visited1, [indexUrl])

/-- Recursion budget used by the entry points. -/
def discoverFuel (w : World) : Nat := w.length + 1

/-- Candidate loop shared by the robots.txt and alternative-location
phases (discover.ts lines 223 and 249): probe unvisited candidates, mark
successful ones visited, expand indexes. -/
def discoverCandidatesLoop (w : World) (df : DiscoveredFrom) :
    List String → DiscState → DiscState
  | [], st => st
  | u :: rest, (found, visited, log) =>
      if u ∈ visited then discoverCandidatesLoop w df rest (found, visited, log)
      else
        match checkSitemap w u df with
        | (some sm, lg) =>
            let visited1 := u :: visited
            if sm.type = .sitemap_index then
              let r := discoverFromSitemapIndex w (discoverFuel w) u visited1
              discoverCandidatesLoop w df rest (found ++ [sm] ++ r.1, r.2.1, log ++ lg ++ r.2.2)
            else discoverCandidatesLoop w df rest (found ++ [sm], visited1, log ++ lg)
        | (none, lg) => discoverCandidatesLoop w df rest (found, visited, log ++ lg)

/-- Success payload of `discover_sitemaps`. -/
structure DiscoverSitemapsData where
  domain : String
  sitemaps : List DiscoveredSitemap
  robots_txt_found : Bool
  deriving DecidableEq

/-- `discoverSitemaps` (discover.ts line 175), with its fetch log. -/
def discoverSitemaps (w : World) (url : String) :
    Response DiscoverSitemapsData × List String :=
  if url = "" then (.err .INVALID_INPUT "URL is required and must be a string", [])
  else
    match normalizeUrl url with
    | none => (.err .INVALID_INPUT "Invalid URL format. Please provide a valid HTTP or HTTPS URL.", [])
    | some normalizedUrl =>
        let domain := origin normalizedUrl
        let standardSitemapUrl := domain ++ "/sitemap.xml"
        let c1 := checkSitemap w standardSitemapUrl .standard_location
        let st1 : DiscState :=
          match c1.1 with
          | some sm =>
              if sm.type = .sitemap_index then
                let r := discoverFromSitemapIndex w (discoverFuel w) standardSitemapUrl
                  [standardSitemapUrl]
                (sm :: r.1, r.2.1, c1.2 ++ r.2.2)
              else ([sm], [standardSitemapUrl], c1.2)
          | none => ([], [], c1.2)
        let robotsTxtUrl := domain ++ "/robots.txt"
        let rr := parseSitemapsFromRobotsTxt w robotsTxtUrl
        let st2 := discoverCandidatesLoop w .robots_txt rr.1.1
          (st1.1, st1.2.1, st1.2.2 ++ rr.2)
        let altLocations := [domain ++ "/sitemap_index.xml", domain ++ "/sitemap.xml.gz",
          domain ++ "/sitemaps/sitemap.xml"]
        let st3 := discoverCandidatesLoop w .standard_location altLocations st2
        let warnings := if st3.1.isEmpty then ["No sitemaps found for this domain"] else []
        (.ok ⟨domain, st3.1, rr.1.2⟩ ⟨some normalizedUrl, none, warnings⟩, st3.2.2)

/-! ## build_crawl_frontier (src/tools/frontier.ts) -/

/-- One accepted frontier URL. -/
structure FrontierUrl where
  url : String
  source_sitemap : String
  last_modified : Option String := none
  priority : Option String := none
  deriving DecidableEq

/-- Caller-supplied frontier rules; all fields optional as in the source
interface. -/
structure CrawlFrontierRules where
  «include» : Option (List String) := none
  exclude : Option (List String) := none
  max_urls : Option Int := none
  deriving DecidableEq

/-- `passesFilters` (frontier.ts line 26). -/
def passesFilters (url : String) (rules : CrawlFrontierRules) : Bool :=
  let includeOk :=
    match rules.«include» with
    | some (p :: ps) => (p :: ps).any (fun pat => matchesPattern url pat)
    | _ => true
  let excludeOk :=
    match rules.exclude with
    | some (p :: ps) => !((p :: ps).any (fun pat => matchesPattern url pat))
    | _ => true
  includeOk && excludeOk

/-- Result of `collectUrlsFromSitemap`, with visited set and fetch log. -/
structure CollectResult where
  urls : List FrontierUrl
  sitemapsProcessed : Nat
  visited : List String
  log : List String
  deriving DecidableEq

/-- Entry loop of a leaf sitemap (frontier.ts line 81): stop at the
budget, keep entries passing the filters. -/
def leafLoop (rules : CrawlFrontierRules) (sitemapUrl : String) (maxUrls : Int) :
    List SitemapEntry → List FrontierUrl → List FrontierUrl
  | [], acc => acc
  | entry :: rest, acc =>
      if maxUrls ≤ (acc.length : Int) then acc
      else if passesFilters entry.loc rules then
        leafLoop rules sitemapUrl maxUrls rest
          (acc ++ [⟨entry.loc, sitemapUrl, entry.lastmod, entry.priority⟩])
      else leafLoop rules sitemapUrl maxUrls rest acc

/-- One step of the child loop of an index document (frontier.ts line
70): stop at the budget, recurse with the remaining budget. -/
def collectChildStep (collectF : String → List String → Int → CollectResult) (maxUrls : Int)
    (st : CollectResult) (child : String) : CollectResult :=
  if maxUrls ≤ (st.urls.length : Int) then st
  else
    let r := collectF child st.visited (maxUrls - st.urls.length)
    ⟨st.urls ++ r.urls, st.sitemapsProcessed + r.sitemapsProcessed, r.visited,
      st.log ++ r.log⟩

/-- `collectUrlsFromSitemap` (frontier.ts line 51): visited guard, fetch,
then either the child loop of an index or the entry loop of a leaf; any
fetch or parse failure skips the document with zero processed count.  The
recursion budget models the call stack; any budget of at least the world
size plus one gives the fixed point (see the stability theorem). -/
def collectUrlsFromSitemap (w : World) (rules : CrawlFrontierRules) :
    Nat → String → List String → Int → CollectResult
  | 0, _, visited, _ => ⟨[], 0, visited, []⟩
  | fuel + 1, sitemapUrl, visited, maxUrls =>
      if sitemapUrl ∈ visited then ⟨[], 0, visited, []⟩
      else
        let visited1 := sitemapUrl :: visited
        match fetchSitemap w sitemapUrl with
        | .error _ => ⟨[], 0, visited1, [sitemapUrl]⟩
        | .ok doc =>
            if doc.isIndex then
              doc.indexUrls.foldl
                (collectChildStep (fun u v b => collectUrlsFromSitemap w rules fuel u v b) maxUrls)
                ⟨[], 1, visited1, [sitemapUrl]⟩
            else
              ⟨leafLoop rules sitemapUrl maxUrls doc.urls [], 1, visited1, [sitemapUrl]⟩

/-- Success payload of `build_crawl_frontier`. -/
structure BuildCrawlFrontierData where
  seed_url : String
  frontier : List FrontierUrl
  total_urls : Nat
  sitemaps_processed : Nat
  rules_applied : CrawlFrontierRules
  deriving DecidableEq

/-- Deduplication by URL with a seen set (frontier.ts line 221),
keeping the first occurrence in order. -/
def dedupeFrontier : List FrontierUrl → List String → List FrontierUrl
  | [], _ => []
  | e :: rest, seen =>
      if e.url ∈ seen then dedupeFrontier rest seen
      else e :: dedupeFrontier rest (e.url :: seen)

/-- Loop over discovered sitemaps (frontier.ts line 194); the source
branches on the discovered type but runs the same call in both arms. -/
def frontierLoop (w : World) (rules : CrawlFrontierRules) (effectiveLimit : Int) :
    List DiscoveredSitemap → List FrontierUrl × Nat × List String × List String →
    List FrontierUrl × Nat × List String × List String
  | [], st => st
  | sm :: rest, (allUrls, processed, visited, log) =>
      if effectiveLimit ≤ (allUrls.length : Int) then (allUrls, processed, visited, log)
      else
        let r := collectUrlsFromSitemap w rules (discoverFuel w) sm.url visited
          (effectiveLimit - allUrls.length)
        frontierLoop w rules effectiveLimit rest
          (allUrls ++ r.urls, processed + r.sitemapsProcessed, r.visited, log ++ r.log)

/-- Truncation warning text (frontier.ts line 234). -/
def truncationWarning (effectiveLimit : Int) (available : Nat) : String :=
  "Result truncated to " ++ toString effectiveLimit ++ " URLs. Total available: " ++
    toString available

/-- `buildCrawlFrontier` (frontier.ts line 105), with its fetch log.
The source defaults `max_urls` to 5000 capped at 10000; the later
`?? DEFAULT_LIMIT` and `?? MAX_LIMIT` fallbacks are unreachable because
the normalized `max_urls` is always present. -/
def buildCrawlFrontier (w : World) (seedUrl : String) (rules : Option CrawlFrontierRules)
    (limit : Option Int) : Response BuildCrawlFrontierData × List String :=
  if seedUrl = "" then (.err .INVALID_INPUT "seed_url is required and must be a string", [])
  else
    match normalizeUrl seedUrl with
    | none =>
        (.err .INVALID_INPUT "Invalid seed URL format. Please provide a valid HTTP or HTTPS URL.", [])
    | some normalizedSeedUrl =>
        let inc := (rules.bind (fun r => r.«include»)).getD []
        let exc := (rules.bind (fun r => r.exclude)).getD []
        let maxU : Int := min ((rules.bind (fun r => r.max_urls)).getD 5000) 10000
        let normalizedRules : CrawlFrontierRules := ⟨some inc, some exc, some maxU⟩
        if inc.any (fun p => p = "") then
          (.err .INVALID_INPUT "Include patterns must be non-empty strings", [])
        else if exc.any (fun p => p = "") then
          (.err .INVALID_INPUT "Exclude patterns must be non-empty strings", [])
        else
          let effectiveLimit : Int := min (limit.getD maxU) maxU
          match discoverSitemaps w normalizedSeedUrl with
          | (.err c m, dlog) => (.err c m, dlog)
          | (.ok ddata dmeta, dlog) =>
              if ddata.sitemaps.isEmpty then
                (.ok ⟨normalizedSeedUrl, [], 0, 0, normalizedRules⟩
                   ⟨some normalizedSeedUrl, none,
                     ["No sitemaps found for this domain. Frontier is empty."]⟩, dlog)
              else
                let st := frontierLoop w normalizedRules effectiveLimit ddata.sitemaps
                  ([], 0, [], [])
                let dedupedUrls := dedupeFrontier st.1 []
                let finalUrls := jsSlice dedupedUrls 0 effectiveLimit
                let warnings :=
                  if effectiveLimit < (dedupedUrls.length : Int) then
                    dmeta.warnings ++ [truncationWarning effectiveLimit dedupedUrls.length]
                  else dmeta.warnings
                (.ok ⟨normalizedSeedUrl, finalUrls, finalUrls.length, st.2.1, normalizedRules⟩
                   ⟨some normalizedSeedUrl, none, warnings⟩, dlog ++ st.2.2.2)

/-- Number of world keys not yet visited; the decreasing measure of the
recursive traversals. -/
def keysOutside (w : World) (visited : List String) : Nat :=
  ((w.map Prod.fst).filter (fun k => !(k ∈ visited))).length

/-- A two-document reference cycle: the standard sitemap and a second
index each list the other. -/
def wCycle : World :=
  [("https://e.com/sitemap.xml",
      .success (strChars "<sitemapindex>") (some ⟨[], true, ["https://e.com/b.xml"]⟩)),
   ("https://e.com/b.xml",
      .success (strChars "<sitemapindex>") (some ⟨[], true, ["https://e.com/sitemap.xml"]⟩))]

/-! # Theorems -/

/-! ## base64url round trip -/

theorem b64Val_b64Char : ∀ i : Nat, i < 64 → b64Val (b64Char i) = some i := by decide

theorem base64urlEncode_head (a : Nat) (bs : List Nat) :
    ∃ t, base64urlEncode (a :: bs) = b64Char (a / 4) :: t := by
  match bs with
  | [] => exact ⟨_, rfl⟩
  | [b] => exact ⟨_, rfl⟩
  | b :: c :: rest => exact ⟨_, rfl⟩

theorem base64url_roundtrip :
    ∀ bs : List Nat, (∀ b ∈ bs, b < 256) →
      base64urlDecode (base64urlEncode bs) = bs := by
  intro bs
  induction bs using base64urlEncode.induct with
  | case1 =>
      intro _
      rfl
  | case2 a =>
      intro h
      have ha : a < 256 := h a (by simp)
      have h1 : a / 4 < 64 := by omega
      have h2 : a % 4 * 16 < 64 := by omega
      simp only [base64urlEncode, base64urlDecode, List.filterMap_cons,
        b64Val_b64Char _ h1, b64Val_b64Char _ h2, List.filterMap_nil]
      show b64Groups [a / 4, a % 4 * 16] = [a]
      simp only [b64Groups]
      congr 1
      omega
  | case3 a b =>
      intro h
      have ha : a < 256 := h a (by simp)
      have hb : b < 256 := h b (by simp)
      have h1 : a / 4 < 64 := by omega
      have h2 : a % 4 * 16 + b / 16 < 64 := by omega
      have h3 : b % 16 * 4 < 64 := by omega
      simp only [base64urlEncode, base64urlDecode, List.filterMap_cons,
        b64Val_b64Char _ h1, b64Val_b64Char _ h2, b64Val_b64Char _ h3, List.filterMap_nil]
      show b64Groups [a / 4, a % 4 * 16 + b / 16, b % 16 * 4] = [a, b]
      simp only [b64Groups]
      congr 1
      · omega
      · congr 1
        omega
  | case4 a b c rest ih =>
      intro h
      have ha : a < 256 := h a (by simp)
      have hb : b < 256 := h b (by simp)
      have hc : c < 256 := h c (by simp)
      have hrest : ∀ x ∈ rest, x < 256 := fun x hx => h x (by simp [hx])
      have h1 : a / 4 < 64 := by omega
      have h2 : a % 4 * 16 + b / 16 < 64 := by omega
      have h3 : b % 16 * 4 + c / 64 < 64 := by omega
      have h4 : c % 64 < 64 := by omega
      have ihr := ih hrest
      simp only [base64urlEncode, base64urlDecode, List.filterMap_cons,
        b64Val_b64Char _ h1, b64Val_b64Char _ h2, b64Val_b64Char _ h3, b64Val_b64Char _ h4]
      show b64Groups (a / 4 :: (a % 4 * 16 + b / 16) :: (b % 16 * 4 + c / 64) :: c % 64 ::
        (base64urlEncode rest).filterMap b64Val) = a :: b :: c :: rest
      rw [b64Groups]
      have : b64Groups ((base64urlEncode rest).filterMap b64Val) = rest := ihr
      rw [this]
      simp only [List.cons.injEq, and_true]
      exact ⟨by omega, by omega, by omega⟩

/-! ## Decimal digit printing and parsing -/

theorem natDigitsAux_eq (fuel : Nat) : ∀ n : Nat, n ≤ fuel → natDigitsAux fuel n = Nat.digits 10 n := by
  induction fuel with
  | zero =>
      intro n hn
      have : n = 0 := by omega
      subst this
      simp [natDigitsAux]
  | succ fuel ih =>
      intro n hn
      match n with
      | 0 => simp [natDigitsAux]
      | m + 1 =>
          rw [natDigitsAux, ih ((m + 1) / 10) (by omega),
            Nat.digits_def' (b := 10) (by norm_num) (Nat.succ_pos m)]

theorem natDigitsLE_eq (n : Nat) : natDigitsLE n = Nat.digits 10 n :=
  natDigitsAux_eq n n le_rfl

theorem foldl_digit_bytes (L : List Nat) : ∀ a : Nat,
    List.foldl (fun acc d => acc * 10 + (d - 48)) a (L.reverse.map (fun d => 48 + d)) =
      a * 10 ^ L.length + Nat.ofDigits 10 L := by
  induction L with
  | nil => intro a; simp
  | cons d L ih =>
      intro a
      rw [List.reverse_cons, List.map_append, List.foldl_append, ih]
      simp only [List.map_cons, List.map_nil, List.foldl_cons, List.foldl_nil,
        Nat.ofDigits_cons, List.length_cons, pow_succ]
      have : 48 + d - 48 = d := by omega
      rw [this]
      ring

theorem digitsVal_natDigitBytes (n : Nat) : digitsVal (natDigitBytes n) = n := by
  unfold natDigitBytes digitsVal
  by_cases h : n = 0
  · subst h; rfl
  · rw [if_neg h, natDigitsLE_eq, foldl_digit_bytes]
    simp [Nat.ofDigits_digits]

theorem natDigitBytes_all_digits (n : Nat) : ∀ b ∈ natDigitBytes n, isDigitByte b = true := by
  intro b hb
  unfold natDigitBytes at hb
  by_cases h : n = 0
  · subst h; simp at hb; subst hb; rfl
  · rw [if_neg h, natDigitsLE_eq] at hb
    simp only [List.mem_map, List.mem_reverse] at hb
    obtain ⟨d, hd, rfl⟩ := hb
    have : d < 10 := Nat.digits_lt_base (by norm_num) hd
    simp [isDigitByte]
    omega

theorem natDigitBytes_shape (n : Nat) :
    ∃ d t, natDigitBytes n = d :: t ∧ isDigitByte d = true ∧ (d = 48 → t = []) := by
  by_cases h : n = 0
  · subst h; exact ⟨48, [], rfl, rfl, fun _ => rfl⟩
  · have hne : Nat.digits 10 n ≠ [] := Nat.digits_ne_nil_iff_ne_zero.mpr h
    have hlast := Nat.getLast_digit_ne_zero 10 h
    unfold natDigitBytes
    rw [if_neg h, natDigitsLE_eq]
    have hrev : (Nat.digits 10 n).reverse ≠ [] := by simpa using hne
    obtain ⟨d, t, ht⟩ := List.exists_cons_of_ne_nil hrev
    refine ⟨48 + d, t.map (fun d => 48 + d), by rw [ht]; rfl, ?_, ?_⟩
    · have hd : d ∈ Nat.digits 10 n := by
        have : d ∈ (Nat.digits 10 n).reverse := by rw [ht]; simp
        simpa using this
      have : d < 10 := Nat.digits_lt_base (by norm_num) hd
      simp [isDigitByte]
      omega
    · intro h48
      exfalso
      have hd0 : d = 0 := by omega
      have : (Nat.digits 10 n).getLast hne = d := by
        have := List.head?_reverse (Nat.digits 10 n)
        rw [ht] at this
        simp only [List.head?_cons] at this
        exact (List.getLast_eq_iff_getLast?_eq_some hne).mpr this.symm
      omega

theorem takeWhile_append_of {α : Type} (p : α → Bool) (l rest : List α)
    (hl : ∀ x ∈ l, p x = true) (hr : ∀ d, rest.head? = some d → p d = false) :
    (l ++ rest).takeWhile p = l ∧ (l ++ rest).dropWhile p = rest := by
  induction l with
  | nil =>
      simp only [List.nil_append]
      cases rest with
      | nil => simp
      | cons r rs => simp [List.takeWhile_cons, List.dropWhile_cons, hr r rfl]
  | cons x xs ih =>
      have hx : p x = true := hl x (by simp)
      have := ih (fun y hy => hl y (by simp [hy]))
      simp [List.takeWhile_cons, List.dropWhile_cons, hx, this.1, this.2]

theorem parseNatBytes_spec (n : Nat) (rest : List Nat)
    (hrest : ∀ d, rest.head? = some d → isDigitByte d = false) :
    parseNatBytes (natDigitBytes n ++ rest) = some (n, rest) := by
  obtain ⟨htake, hdrop⟩ := takeWhile_append_of isDigitByte (natDigitBytes n) rest
    (natDigitBytes_all_digits n) hrest
  obtain ⟨d, t, hshape, hd, hlead⟩ := natDigitBytes_shape n
  unfold parseNatBytes
  simp only [htake, hdrop]
  rw [if_neg, if_neg]
  · rw [digitsVal_natDigitBytes]
  · rw [hshape]
    simp only [List.head?_cons, List.length_cons, Option.some.injEq, not_and]
    intro hlen hd48
    have := hlead hd48
    subst this
    simp at hlen
  · rw [hshape]
    simp

theorem parseNumberBytes_nat (n : Nat) (rest : List Nat)
    (hrest : ∀ d, rest.head? = some d → isDigitByte d = false) :
    parseNumberBytes (intDigitBytes (n : Int) ++ rest) = some ((n : Int), rest) := by
  have hbytes : intDigitBytes (n : Int) = natDigitBytes n := by
    unfold intDigitBytes
    rw [if_neg (by omega)]
    simp
  rw [hbytes]
  obtain ⟨d, t, hshape, hd, _⟩ := natDigitBytes_shape n
  unfold parseNumberBytes
  rw [if_neg]
  · rw [parseNatBytes_spec n rest hrest]
    rfl
  · rw [hshape]
    simp only [List.cons_append, List.head?_cons, Option.some.injEq]
    simp only [isDigitByte, Bool.and_eq_true, decide_eq_true_eq] at hd
    omega

/-! ## JSON string escape round trip -/

theorem hexVal_hexDigitByte : ∀ d : Nat, d < 16 → hexVal (hexDigitByte d) = some d := by
  decide

theorem parseStringBody_escape : ∀ u rest : List Nat, (∀ b ∈ u, b < 256) →
    parseStringBody (jsonEscape u ++ 34 :: rest) = some (u, rest) := by
  intro u
  induction u with
  | nil =>
      intro rest _
      show parseStringBody (34 :: rest) = some ([], rest)
      unfold parseStringBody
      simp
  | cons b bs ih =>
      intro rest hu
      have hb : b < 256 := hu b (by simp)
      have ihr := ih rest (fun x hx => hu x (by simp [hx]))
      rw [jsonEscape, List.append_assoc]
      unfold jsonEscapeByte
      by_cases h34 : b = 34
      · subst h34
        simp only [if_pos rfl, List.cons_append, List.nil_append]
        unfold parseStringBody
        simp [simpleEscape, ihr]
      · rw [if_neg h34]
        by_cases h92 : b = 92
        · subst h92
          simp only [if_pos rfl, List.cons_append, List.nil_append]
          unfold parseStringBody
          simp [simpleEscape, ihr]
        · rw [if_neg h92]
          by_cases h8 : b = 8
          · subst h8
            simp only [if_pos rfl, List.cons_append, List.nil_append]
            unfold parseStringBody
            simp [simpleEscape, ihr]
          · rw [if_neg h8]
            by_cases h9 : b = 9
            · subst h9
              simp only [if_pos rfl, List.cons_append, List.nil_append]
              unfold parseStringBody
              simp [simpleEscape, ihr]
            · rw [if_neg h9]
              by_cases h10 : b = 10
              · subst h10
                simp only [if_pos rfl, List.cons_append, List.nil_append]
                unfold parseStringBody
                simp [simpleEscape, ihr]
              · rw [if_neg h10]
                by_cases h12 : b = 12
                · subst h12
                  simp only [if_pos rfl, List.cons_append, List.nil_append]
                  unfold parseStringBody
                  simp [simpleEscape, ihr]
                · rw [if_neg h12]
                  by_cases h13 : b = 13
                  · subst h13
                    simp only [if_pos rfl, List.cons_append, List.nil_append]
                    unfold parseStringBody
                    simp [simpleEscape, ihr]
                  · rw [if_neg h13]
                    by_cases hctl : b < 32
                    · rw [if_pos hctl]
                      have e1 : hexVal 48 = some 0 := by decide
                      have e2 := hexVal_hexDigitByte (b / 16) (by omega)
                      have e3 := hexVal_hexDigitByte (b % 16) (by omega)
                      simp only [List.cons_append, List.nil_append]
                      unfold parseStringBody
                      simp only [if_neg (by omega : ¬(92 : Nat) = 34), if_pos rfl,
                        if_pos (rfl : (117 : Nat) = 117), e1, e2, e3, ihr]
                      have harg : 0 * 4096 + 0 * 256 + b / 16 * 16 + b % 16 = b := by omega
                      rw [harg]
                      have hgoal : utf8Bytes b = [b] := by
                        unfold utf8Bytes
                        rw [if_pos (by omega)]
                      simp [hgoal]
                    · rw [if_neg hctl]
                      simp only [List.cons_append, List.nil_append]
                      unfold parseStringBody
                      simp [h34, h92, hctl, ihr]

theorem skipWs_cons (b : Nat) (l : List Nat) (h : isWsByte b = false) :
    skipWs (b :: l) = b :: l := by
  simp [skipWs, List.dropWhile_cons, h]

theorem parseNumberBytes_natBytes (n : Nat) (rest : List Nat)
    (hrest : ∀ d, rest.head? = some d → isDigitByte d = false) :
    parseNumberBytes (natDigitBytes n ++ rest) = some ((n : Int), rest) := by
  obtain ⟨d, t, hshape, hd, _⟩ := natDigitBytes_shape n
  unfold parseNumberBytes
  rw [if_neg]
  · rw [parseNatBytes_spec n rest hrest]
    rfl
  · rw [hshape]
    simp only [List.cons_append, List.head?_cons, Option.some.injEq]
    simp only [isDigitByte, Bool.and_eq_true, decide_eq_true_eq] at hd
    omega

theorem parseScalar_natBytes (n : Nat) (rest : List Nat)
    (hrest : ∀ d, rest.head? = some d → isDigitByte d = false) :
    parseScalar (natDigitBytes n ++ rest) = some (JVal.num (n : Int), rest) := by
  obtain ⟨d, t, hshape, hd, _⟩ := natDigitBytes_shape n
  unfold parseScalar
  rw [if_neg]
  · rw [parseNumberBytes_natBytes n rest hrest]
    rfl
  · rw [hshape]
    simp only [List.cons_append, List.head?_cons, Option.some.injEq]
    simp only [isDigitByte, Bool.and_eq_true, decide_eq_true_eq] at hd
    omega

theorem parseScalar_strBytes (u rest : List Nat) (hu : ∀ b ∈ u, b < 256) :
    parseScalar (34 :: (jsonEscape u ++ 34 :: rest)) = some (JVal.str u, rest) := by
  unfold parseScalar
  simp only [List.head?_cons, List.tail_cons, if_true]
  rw [parseStringBody_escape u rest hu]
  rfl

theorem isWsByte_digit (d : Nat) (hd : isDigitByte d = true) : isWsByte d = false := by
  simp only [isDigitByte, Bool.and_eq_true, decide_eq_true_eq] at hd
  simp only [isWsByte, Bool.or_eq_false_iff, decide_eq_false_iff_not]
  omega

theorem parseMembers_cursor_none (f : Nat) (n : Nat) :
    parseMembers (f + 1) (34 :: ([111, 102, 102, 115, 101, 116] ++ 34 :: 58 ::
      (natDigitBytes n ++ [125]))) =
      some ([([111, 102, 102, 115, 101, 116], JVal.num (n : Int))], []) := by
  obtain ⟨d, t, hshape, hd, _⟩ := natDigitBytes_shape n
  unfold parseMembers
  rw [skipWs_cons 34 _ (by decide)]
  simp only [List.head?_cons, List.tail_cons, if_true]
  have hkey : ([111, 102, 102, 115, 101, 116] : List Nat) ++ 34 :: 58 :: (natDigitBytes n ++ [125]) =
      jsonEscape [111, 102, 102, 115, 101, 116] ++ 34 :: (58 :: (natDigitBytes n ++ [125])) := rfl
  rw [hkey, parseStringBody_escape _ _ (by decide)]
  simp only []
  rw [skipWs_cons 58 _ (by decide)]
  simp only [List.head?_cons, List.tail_cons, if_true]
  have hws : skipWs (natDigitBytes n ++ [125]) = natDigitBytes n ++ [125] := by
    rw [hshape]
    exact skipWs_cons d _ (isWsByte_digit d hd)
  rw [hws, parseScalar_natBytes n [125] (by intro dd h; simp at h; subst h; decide)]
  simp only []
  have h125 : skipWs [125] = [125] := rfl
  rw [h125]
  simp only [List.head?_cons, List.tail_cons]
  rw [if_neg (by decide), if_pos trivial]

theorem parseMembers_cursor_url (f : Nat) (u : List Nat) (hu : ∀ b ∈ u, b < 256) :
    parseMembers (f + 1) (34 :: ([115, 105, 116, 101, 109, 97, 112, 95, 117, 114, 108] ++
      34 :: 58 :: (34 :: (jsonEscape u ++ 34 :: [125])))) =
      some ([([115, 105, 116, 101, 109, 97, 112, 95, 117, 114, 108], JVal.str u)], []) := by
  unfold parseMembers
  rw [skipWs_cons 34 _ (by decide)]
  simp only [List.head?_cons, List.tail_cons, if_true]
  have hkey : ([115, 105, 116, 101, 109, 97, 112, 95, 117, 114, 108] : List Nat) ++
      34 :: 58 :: (34 :: (jsonEscape u ++ 34 :: [125])) =
      jsonEscape [115, 105, 116, 101, 109, 97, 112, 95, 117, 114, 108] ++
        34 :: (58 :: (34 :: (jsonEscape u ++ 34 :: [125]))) := rfl
  rw [hkey, parseStringBody_escape _ _ (by decide)]
  simp only []
  rw [skipWs_cons 58 _ (by decide)]
  simp only [List.head?_cons, List.tail_cons, if_true]
  rw [skipWs_cons 34 _ (by decide)]
  rw [parseScalar_strBytes u [125] hu]
  simp only []
  have h125 : skipWs [125] = [125] := rfl
  rw [h125]
  simp only [List.head?_cons, List.tail_cons]
  rw [if_neg (by decide), if_pos trivial]

theorem parseMembers_cursor_some (f : Nat) (n : Nat) (u : List Nat) (hu : ∀ b ∈ u, b < 256) :
    parseMembers (f + 2) (34 :: ([111, 102, 102, 115, 101, 116] ++ 34 :: 58 ::
      (natDigitBytes n ++ (44 :: 34 :: ([115, 105, 116, 101, 109, 97, 112, 95, 117, 114, 108] ++
        34 :: 58 :: (34 :: (jsonEscape u ++ 34 :: [125]))))))) =
      some ([([111, 102, 102, 115, 101, 116], JVal.num (n : Int)),
        ([115, 105, 116, 101, 109, 97, 112, 95, 117, 114, 108], JVal.str u)], []) := by
  obtain ⟨d, t, hshape, hd, _⟩ := natDigitBytes_shape n
  show parseMembers (f + 1 + 1) _ = _
  unfold parseMembers
  rw [skipWs_cons 34 _ (by decide)]
  simp only [List.head?_cons, List.tail_cons, if_true]
  have hkey : ([111, 102, 102, 115, 101, 116] : List Nat) ++ 34 :: 58 ::
      (natDigitBytes n ++ (44 :: 34 :: ([115, 105, 116, 101, 109, 97, 112, 95, 117, 114, 108] ++
        34 :: 58 :: (34 :: (jsonEscape u ++ 34 :: [125]))))) =
      jsonEscape [111, 102, 102, 115, 101, 116] ++ 34 :: (58 ::
      (natDigitBytes n ++ (44 :: 34 :: ([115, 105, 116, 101, 109, 97, 112, 95, 117, 114, 108] ++
        34 :: 58 :: (34 :: (jsonEscape u ++ 34 :: [125])))))) := rfl
  rw [hkey, parseStringBody_escape _ _ (by decide)]
  simp only []
  rw [skipWs_cons 58 _ (by decide)]
  simp only [List.head?_cons, List.tail_cons, if_true]
  have hws : skipWs (natDigitBytes n ++ (44 :: 34 ::
      ([115, 105, 116, 101, 109, 97, 112, 95, 117, 114, 108] ++
        34 :: 58 :: (34 :: (jsonEscape u ++ 34 :: [125]))))) =
      natDigitBytes n ++ (44 :: 34 :: ([115, 105, 116, 101, 109, 97, 112, 95, 117, 114, 108] ++
        34 :: 58 :: (34 :: (jsonEscape u ++ 34 :: [125])))) := by
    rw [hshape]
    exact skipWs_cons d _ (isWsByte_digit d hd)
  rw [hws, parseScalar_natBytes n _ (by intro dd h; simp at h; subst h; decide)]
  simp only []
  rw [skipWs_cons 44 _ (by decide)]
  simp only [List.head?_cons, List.tail_cons, if_true]
  rw [parseMembers_cursor_url f u hu]
  rfl

theorem natDigitBytes_lt (n : Nat) : ∀ b ∈ natDigitBytes n, b < 256 := by
  intro b hb
  have := natDigitBytes_all_digits n b hb
  simp only [isDigitByte, Bool.and_eq_true, decide_eq_true_eq] at this
  omega

theorem intDigitBytes_lt (k : Int) : ∀ b ∈ intDigitBytes k, b < 256 := by
  intro b hb
  unfold intDigitBytes at hb
  split_ifs at hb
  · rcases List.mem_cons.mp hb with h45 | hrest
    · omega
    · exact natDigitBytes_lt _ b hrest
  · exact natDigitBytes_lt _ b hb

theorem jsonEscapeByte_lt (b : Nat) (hb : b < 256) : ∀ x ∈ jsonEscapeByte b, x < 256 := by
  intro x hx
  unfold jsonEscapeByte at hx
  have hhex : ∀ d : Nat, d < 16 → hexDigitByte d < 256 := by decide
  split_ifs at hx <;> simp_all <;>
    rcases hx with h | h | h | h | h <;>
      first
        | omega
        | (subst h; exact hhex _ (by omega))

theorem jsonEscape_lt (u : List Nat) (hu : ∀ b ∈ u, b < 256) : ∀ x ∈ jsonEscape u, x < 256 := by
  induction u with
  | nil => intro x hx; simp [jsonEscape] at hx
  | cons b bs ih =>
      intro x hx
      rw [jsonEscape] at hx
      rcases List.mem_append.mp hx with h | h
      · exact jsonEscapeByte_lt b (hu b (by simp)) x h
      · exact ih (fun y hy => hu y (by simp [hy])) x h

theorem cursorJsonBytes_lt (c : CursorData)
    (hu : ∀ u, c.sitemap_url = some u → ∀ b ∈ u, b < 256) :
    ∀ b ∈ cursorJsonBytes c, b < 256 := by
  intro b hb
  unfold cursorJsonBytes at hb
  rcases List.mem_append.mp hb with h | h
  · rcases List.mem_append.mp h with h2 | h2
    · rcases List.mem_append.mp h2 with h3 | h3
      · rw [show strBytes "\x7b\"offset\":" = [123, 34, 111, 102, 102, 115, 101, 116, 34, 58] from rfl] at h3
        simp at h3
        omega
      · exact intDigitBytes_lt _ b h3
    · cases hsu : c.sitemap_url with
      | none => rw [hsu] at h2; simp at h2
      | some u =>
          rw [hsu] at h2
          rcases List.mem_append.mp h2 with h3 | h3
          · rcases List.mem_append.mp h3 with h4 | h4
            · rw [show strBytes ",\"sitemap_url\":\"" = [44, 34, 115, 105, 116, 101, 109, 97, 112, 95, 117, 114, 108, 34, 58, 34] from rfl] at h4
              simp at h4
              omega
            · exact jsonEscape_lt u (hu u hsu) b h4
          · simp at h3; omega
  · simp at h; omega

theorem cursor_roundtrip (c : CursorData) (h0 : 0 ≤ c.offset)
    (hu : ∀ u, c.sitemap_url = some u → ∀ b ∈ u, b < 256) :
    decodeCursor (encodeCursor c) = some (cursorToJVal c) := by
  unfold decodeCursor encodeCursor
  rw [show (String.mk (base64urlEncode (cursorJsonBytes c))).data =
    base64urlEncode (cursorJsonBytes c) from rfl]
  rw [show base64urlDecode (base64urlEncode (cursorJsonBytes c)) =
    cursorJsonBytes c from base64url_roundtrip _ (cursorJsonBytes_lt c hu)]
  have hoff : intDigitBytes c.offset = natDigitBytes c.offset.toNat := by
    unfold intDigitBytes
    rw [if_neg (by omega)]
  have hcast : ((c.offset.toNat : Nat) : Int) = c.offset := Int.toNat_of_nonneg h0
  cases hsu : c.sitemap_url with
  | none =>
      have hshape : cursorJsonBytes c = 123 :: (34 :: ([111, 102, 102, 115, 101, 116] ++
          34 :: 58 :: (natDigitBytes c.offset.toNat ++ [125]))) := by
        unfold cursorJsonBytes
        rw [hsu, hoff,
          show strBytes "\x7b\"offset\":" = [123, 34, 111, 102, 102, 115, 101, 116, 34, 58] from rfl]
        simp only [List.append_assoc, List.cons_append, List.nil_append]
      rw [hshape]
      unfold jsonParseBytes parseTopValue
      rw [skipWs_cons 123 _ (by decide)]
      simp only [List.head?_cons, List.tail_cons, if_true]
      rw [skipWs_cons 34 _ (by decide)]
      simp only [List.head?_cons]
      rw [if_neg (by decide)]
      rw [parseMembers_cursor_none _ c.offset.toNat]
      simp only [Option.map_some']
      rw [show skipWs [] = [] from rfl]
      rw [if_pos rfl]
      unfold cursorToJVal
      rw [hsu, hcast]
      rfl
  | some u =>
      have hushape : cursorJsonBytes c = 123 :: (34 :: ([111, 102, 102, 115, 101, 116] ++
          34 :: 58 :: (natDigitBytes c.offset.toNat ++ (44 :: 34 ::
            ([115, 105, 116, 101, 109, 97, 112, 95, 117, 114, 108] ++
              34 :: 58 :: (34 :: (jsonEscape u ++ 34 :: [125]))))))) := by
        unfold cursorJsonBytes
        rw [hsu, hoff,
          show strBytes "\x7b\"offset\":" = [123, 34, 111, 102, 102, 115, 101, 116, 34, 58] from rfl,
          show strBytes ",\"sitemap_url\":\"" =
            [44, 34, 115, 105, 116, 101, 109, 97, 112, 95, 117, 114, 108, 34, 58, 34] from rfl]
        simp
      rw [hushape]
      unfold jsonParseBytes parseTopValue
      rw [skipWs_cons 123 _ (by decide)]
      simp only [List.head?_cons, List.tail_cons, if_true]
      rw [skipWs_cons 34 _ (by decide)]
      simp only [List.head?_cons]
      rw [if_neg (by decide)]
      have hlen : ∀ X : List Nat, (34 :: X).length + 1 = X.length + 2 := by
        intro X
        simp
      rw [hlen]
      rw [parseMembers_cursor_some _ c.offset.toNat u (hu u hsu)]
      simp only [Option.map_some']
      rw [show skipWs [] = [] from rfl]
      rw [if_pos rfl]
      unfold cursorToJVal
      rw [hsu, hcast]
      rfl


/-! ## Claim C2 -/

theorem cursorJsonBytes_head (c : CursorData) :
    ∃ r, cursorJsonBytes c = 123 :: r := by
  unfold cursorJsonBytes
  rw [show strBytes "\x7b\"offset\":" = 123 :: [34, 111, 102, 102, 115, 101, 116, 34, 58] from rfl]
  exact ⟨_, rfl⟩

/-- C2, amended.  Decoding inverts encoding on every valid cursor payload
(nonnegative offset, byte-valued optional sitemap URL), yielding exactly
the JSON value of the payload; the strings "invalid" and "" decode to
none.  (The original claim that every non-encoding decodes to none is
refuted by `C2_cursor_decode_nonnull_cex`.) -/
theorem C2_cursor_roundtrip :
    (∀ c : CursorData, 0 ≤ c.offset → (∀ u, c.sitemap_url = some u → ∀ b ∈ u, b < 256) →
      decodeCursor (encodeCursor c) = some (cursorToJVal c)) ∧
    decodeCursor "invalid" = none ∧ decodeCursor "" = none := by
  refine ⟨fun c h0 hu => cursor_roundtrip c h0 hu, ?_, ?_⟩ <;> rfl

/-- Witness: the round trip evaluated at the payloads of the repository's
unit tests. -/
theorem C2_cursor_roundtrip_witness :
    decodeCursor (encodeCursor ⟨100, none⟩) = some (cursorToJVal ⟨100, none⟩) ∧
    decodeCursor (encodeCursor ⟨50, some (strBytes "https://example.com/sitemap.xml")⟩) =
      some (cursorToJVal ⟨50, some (strBytes "https://example.com/sitemap.xml")⟩) :=
  ⟨C2_cursor_roundtrip.1 ⟨100, none⟩ (by decide) (fun u h => nomatch h),
   C2_cursor_roundtrip.1 ⟨50, some (strBytes "https://example.com/sitemap.xml")⟩ (by decide)
     (by intro u h; injection h with h; subst h; decide)⟩

/-- Counterexample to C2 as stated: "NQ" is not the encoding of any
cursor payload, yet `decodeCursor` returns the JSON number 5 (the bytes
decode to "5"), not the invalid result. -/
theorem C2_cursor_decode_nonnull_cex :
    decodeCursor "NQ" = some (JVal.num 5) ∧ (∀ c : CursorData, encodeCursor c ≠ "NQ") := by
  constructor
  · rfl
  · intro c h
    obtain ⟨r, hr⟩ := cursorJsonBytes_head c
    have hdata : base64urlEncode (cursorJsonBytes c) = ['N', 'Q'] := congrArg String.data h
    rw [hr] at hdata
    obtain ⟨t, ht⟩ := base64urlEncode_head 123 r
    rw [ht] at hdata
    have : b64Char (123 / 4) = 'N' := (List.cons.injEq _ _ _ _ ▸ hdata).1
    exact absurd this (by decide)


/-! ## Claim C10 -/

theorem charsStartWith_of_append (xs ys : List Char) :
    ∀ t, charsStartWith (xs ++ ys) t = true → charsStartWith xs t = true := by
  induction xs with
  | nil => intro t _; rfl
  | cons a as ih =>
      intro t h
      cases t with
      | nil => exact nomatch h
      | cons b bs =>
          simp only [List.cons_append, charsStartWith, Bool.and_eq_true] at h ⊢
          exact ⟨h.1, ih bs h.2⟩

theorem containsSub_of_append (xs ys l : List Char)
    (h : containsSub (xs ++ ys) l = true) : containsSub xs l = true := by
  unfold containsSub at h ⊢
  rw [List.any_eq_true] at h ⊢
  obtain ⟨k, hk, hsw⟩ := h
  exact ⟨k, hk, charsStartWith_of_append xs ys _ hsw⟩

/-- C10: a probed candidate with a 2xx response is classified as a
sitemap index iff its decoded body contains the raw substring
`<sitemapindex`, and as a plain sitemap otherwise — independently of the
XML parse outcome (the `parsed` oracle component is unconstrained). -/
theorem C10_checkSitemap_by_substring (w : World) (url : String) (df : DiscoveredFrom)
    (content : List Char) (parsed : Option SitemapDoc)
    (h : worldFetch w url = some (.success content parsed)) :
    (checkSitemap w url df).1 = some ⟨url,
      if containsSub (strChars "<sitemapindex") content then .sitemap_index else .sitemap, df⟩ := by
  unfold checkSitemap
  rw [h]
  simp only
  congr 2
  by_cases hA : containsSub (strChars "<sitemapindex") content = true
  · simp [hA]
  · have hB : containsSub (strChars "<sitemapindex>") content = false := by
      rw [Bool.eq_false_iff]
      intro hBt
      exact hA (containsSub_of_append (strChars "<sitemapindex") ['>'] content hBt)
    rw [Bool.not_eq_true] at hA
    simp [hA, hB]

/-- Witness for C10: a body that merely mentions the index tag inside
otherwise non-XML text is classified as an index, and a non-XML body
without it as a plain sitemap. -/
theorem C10_checkSitemap_by_substring_witness :
    (checkSitemap [("https://example.com/a.xml",
        .success (strChars "hello <sitemapindex world") none)]
      "https://example.com/a.xml" .standard_location).1 =
      some ⟨"https://example.com/a.xml", .sitemap_index, .standard_location⟩ ∧
    (checkSitemap [("https://example.com/b.xml", .success (strChars "not xml at all") none)]
      "https://example.com/b.xml" .robots_txt).1 =
      some ⟨"https://example.com/b.xml", .sitemap, .robots_txt⟩ := by
  constructor
  · rw [C10_checkSitemap_by_substring _ _ _ (strChars "hello <sitemapindex world") none (by rfl)]
    rfl
  · rw [C10_checkSitemap_by_substring _ _ _ (strChars "not xml at all") none (by rfl)]
    rfl


/-! ## Claim C6 -/

/-- C6, amended: with a seed URL that normalizes successfully, an
empty-string include pattern fails INVALID_INPUT mentioning "Include
patterns" with no fetch performed; an empty-string exclude pattern does
the same mentioning "Exclude patterns" provided every include pattern is
non-empty (the include check runs first — see
`C6_exclude_message_cex`). -/
theorem C6_empty_pattern_validation (w : World) (seedUrl : String)
    (rules : Option CrawlFrontierRules) (limit : Option Int) (nu : String)
    (hn : normalizeUrl seedUrl = some nu) :
    (("" ∈ (rules.bind (fun r => r.«include»)).getD []) →
      buildCrawlFrontier w seedUrl rules limit =
        (.err .INVALID_INPUT "Include patterns must be non-empty strings", []) ∧
      containsSub (strChars "Include patterns")
        (strChars "Include patterns must be non-empty strings") = true) ∧
    (("" ∉ (rules.bind (fun r => r.«include»)).getD [] ∧
        "" ∈ (rules.bind (fun r => r.exclude)).getD []) →
      buildCrawlFrontier w seedUrl rules limit =
        (.err .INVALID_INPUT "Exclude patterns must be non-empty strings", []) ∧
      containsSub (strChars "Exclude patterns")
        (strChars "Exclude patterns must be non-empty strings") = true) := by
  have hne : ¬ seedUrl = "" := by
    intro e
    rw [e, show normalizeUrl "" = none from rfl] at hn
    exact nomatch hn
  constructor
  · intro hinc
    refine ⟨?_, by decide⟩
    unfold buildCrawlFrontier
    rw [if_neg hne, hn]
    simp only
    rw [if_pos]
    simp only [List.any_eq_true, decide_eq_true_eq]
    exact ⟨"", hinc, rfl⟩
  · intro ⟨hninc, hexc⟩
    refine ⟨?_, by decide⟩
    unfold buildCrawlFrontier
    rw [if_neg hne, hn]
    simp only
    rw [if_neg, if_pos]
    · simp only [List.any_eq_true, decide_eq_true_eq]
      exact ⟨"", hexc, rfl⟩
    · simp only [List.any_eq_true, decide_eq_true_eq, not_exists, not_and]
      intro p hp he
      subst he
      exact hninc hp

/-- Witness for C6: both validation failures at concrete calls. -/
theorem C6_empty_pattern_validation_witness :
    buildCrawlFrontier [] "https://example.com" (some ⟨some [""], none, none⟩) none =
      (.err .INVALID_INPUT "Include patterns must be non-empty strings", []) ∧
    buildCrawlFrontier [] "https://example.com" (some ⟨some ["*blog*"], some [""], none⟩) none =
      (.err .INVALID_INPUT "Exclude patterns must be non-empty strings", []) :=
  ⟨((C6_empty_pattern_validation [] "https://example.com" (some ⟨some [""], none, none⟩)
      none "https://example.com" (by rfl)).1 (by decide)).1,
   ((C6_empty_pattern_validation [] "https://example.com" (some ⟨some ["*blog*"], some [""], none⟩)
      none "https://example.com" (by rfl)).2 (by decide)).1⟩

/-- Counterexample to C6 as stated: a call whose exclude list contains an
empty pattern (alongside an empty include pattern) fails with the include
message, which does not mention "Exclude patterns". -/
theorem C6_exclude_message_cex :
    buildCrawlFrontier [] "https://example.com" (some ⟨some [""], some [""], none⟩) none =
      (.err .INVALID_INPUT "Include patterns must be non-empty strings", []) ∧
    containsSub (strChars "Exclude patterns")
      (strChars "Include patterns must be non-empty strings") = false := by
  exact ⟨rfl, by decide⟩


/-! ## Claim C3 -/

theorem compileAux_noquest : ∀ (p : List Char) (acc : List RElem) (st : RPend),
    (∀ c ∈ p, c ≠ '?') →
    compileAux (tokenizePattern p) acc st =
      some (acc ++ pendElems st ++
        p.map (fun c => if c = '*' then RElem.dotStar else RElem.lit c)) := by
  intro p
  induction p with
  | nil =>
      intro acc st _
      simp [tokenizePattern, compileAux]
  | cons c cs ih =>
      intro acc st hq
      have hc : c ≠ '?' := hq c (by simp)
      have hcs : ∀ x ∈ cs, x ≠ '?' := fun x hx => hq x (by simp [hx])
      simp only [tokenizePattern, List.map_cons]
      by_cases hstar : c = '*'
      · subst hstar
        rw [if_pos rfl]
        show compileAux (tokenizePattern cs) (acc ++ pendElems st) .pStar = _
        rw [ih (acc ++ pendElems st) .pStar hcs]
        simp [pendElems]
      · rw [if_neg hstar, if_neg hc]
        show compileAux (tokenizePattern cs) (acc ++ pendElems st) (.pLit c) = _
        rw [ih (acc ++ pendElems st) (.pLit c) hcs]
        simp [pendElems, hstar]

theorem reMatch_glob : ∀ (p : List Char) (s : List Char), (∀ c ∈ p, c ≠ '?') →
    (∀ c ∈ s, isLineTerm c = false) →
    reMatch (p.map (fun c => if c = '*' then RElem.dotStar else RElem.lit c)) s =
      globMatchCI p s := by
  intro p
  induction p with
  | nil =>
      intro s _ _
      simp [reMatch, globMatchCI]
  | cons c cs ih =>
      intro s hq hs
      have hcs : ∀ x ∈ cs, x ≠ '?' := fun x hx => hq x (by simp [hx])
      simp only [List.map_cons]
      by_cases hstar : c = '*'
      · subst hstar
        rw [if_pos rfl]
        show _ = globMatchCI ('*' :: cs) s
        unfold globMatchCI
        rw [if_pos rfl]
        simp only [reMatch]
        congr 1
        funext k
        have htake : (s.take k).all (fun c => !(isLineTerm c)) = true := by
          rw [List.all_eq_true]
          intro c hcm
          have := hs c (List.take_subset k s hcm)
          simp [this]
        rw [htake, Bool.true_and]
        exact ih (s.drop k) hcs (fun c hcm => hs c (List.drop_subset k s hcm))
      · rw [if_neg hstar]
        show _ = globMatchCI (c :: cs) s
        unfold globMatchCI
        rw [if_neg hstar]
        cases s with
        | nil => simp [reMatch]
        | cons d ds =>
            simp only [reMatch]
            rw [ih ds hcs (fun x hx => hs x (List.mem_cons_of_mem _ hx))]

/-- C3, amended.  For every pattern free of `?` (such patterns always
compile) and every url free of line terminators, `matchesPattern` agrees
with the anchored case-insensitive glob of the specification; for every
pattern whose compiled matcher is invalid (necessarily involving `?`), it
falls back to substring containment of the pattern with `*` stripped.
Both restrictions are necessary (`C3_regex_glob_divergence_cex`): a `?`
reaches the regex as an optionality quantifier rather than a literal, and
`*` compiles to `.*` without the `s` flag, so it cannot cross a line
terminator while the glob's "any run of characters" can. -/
theorem C3_matchesPattern_glob :
    (∀ url pattern : String, (∀ c ∈ pattern.data, c ≠ '?') →
      (∀ c ∈ url.data, isLineTerm c = false) →
      matchesPattern url pattern = globMatchCI pattern.data url.data) ∧
    (∀ url pattern : String, compilePattern pattern.data = none →
      matchesPattern url pattern = containsSub
        (pattern.data.filter (fun c => c ≠ '*')) url.data) := by
  constructor
  · intro url pattern hq hl
    unfold matchesPattern compilePattern
    rw [compileAux_noquest pattern.data [] .none0 hq]
    simp only [List.nil_append, pendElems]
    exact reMatch_glob pattern.data url.data hq hl
  · intro url pattern hc
    unfold matchesPattern
    rw [hc]

/-- Witness for C3 at the repository's own test patterns. -/
theorem C3_matchesPattern_glob_witness :
    matchesPattern "https://example.com/blog/2024/post" "*blog*post*" =
      globMatchCI (strChars "*blog*post*") (strChars "https://example.com/blog/2024/post") ∧
    matchesPattern "https://example.com/page" "https://other.com/*" =
      globMatchCI (strChars "https://other.com/*") (strChars "https://example.com/page") ∧
    matchesPattern "ab" "a???" =
      containsSub ((strChars "a???").filter (fun c => c ≠ '*')) (strChars "ab") :=
  ⟨C3_matchesPattern_glob.1 _ _ (by decide) (by decide),
   C3_matchesPattern_glob.1 _ _ (by decide) (by decide),
   C3_matchesPattern_glob.2 "ab" "a???" (by rfl)⟩

/-- Counterexample to C3 as stated, in both directions the compiled regex
diverges from the literal glob reading: pattern "ab?" compiles to a valid
matcher yet `matchesPattern "ab" "ab?"` is true while the glob in which
`?` matches itself literally rejects "ab"; and `matchesPattern` rejects
"a\nb" against "a*b" (the `.` of the compiled `.*` does not match a line
terminator) while the glob in which `*` matches any run of characters
accepts it. -/
theorem C3_regex_glob_divergence_cex :
    matchesPattern "ab" "ab?" = true ∧
    (compilePattern (strChars "ab?")).isSome = true ∧
    globMatchCI (strChars "ab?") (strChars "ab") = false ∧
    matchesPattern "a\nb" "a*b" = false ∧
    globMatchCI (strChars "a*b") (strChars "a\nb") = true := by
  exact ⟨rfl, rfl, rfl, by decide, rfl⟩


/-! ## Claim C9 -/

/-- C9: for any numeric limit, the effective page size is
min(max(1, limit), 1000) — out-of-range limits are silently clamped and
never cause INVALID_INPUT; on a successful fetch the returned page is the
clamped-size prefix slice. -/
theorem C9_limit_clamped (w : World) (url : String) (l : Int) (hv : isValidUrl url = true) :
    listSitemapUrls w url (some l) none =
      listSitemapUrls w url (some (min (max 1 l) 1000)) none ∧
    1 ≤ min (max 1 l) 1000 ∧ min (max 1 l) 1000 ≤ 1000 ∧
    (listSitemapUrls w url (some l) none).isInvalidInput = false ∧
    (∀ content doc, worldFetch w url = some (.success content (some doc)) →
      listSitemapUrls w url (some l) none =
        .ok ⟨url, jsSlice doc.urls 0 (min (max 1 l) 1000),
            (jsSlice doc.urls 0 (min (max 1 l) 1000)).length, doc.isIndex⟩
          ⟨some url,
            some (if min (max 1 l) 1000 < (doc.urls.length : Int) then
              some (encodeCursor ⟨min (max 1 l) 1000, none⟩) else none), []⟩) := by
  have hne : ¬ url = "" := by
    intro e
    rw [e] at hv
    exact absurd hv (by decide)
  have hclamp : min (max 1 (min (max 1 l) 1000)) 1000 = min (max 1 l) 1000 := by omega
  refine ⟨?_, by omega, by omega, ?_, ?_⟩
  · unfold listSitemapUrls
    rw [hv]
    simp only [Option.getD_some, hclamp]
  · unfold listSitemapUrls
    rw [hv]
    simp only [Bool.not_true, Bool.false_eq_true, if_false, if_neg hne]
    match hf : fetchSitemap w url with
    | .error fe => cases fe <;> rfl
    | .ok doc => rfl
  · intro content doc hf
    have hdoc : fetchSitemap w url = .ok doc := by
      unfold fetchSitemap
      rw [hf]
    unfold listSitemapUrls
    rw [hv]
    simp only [Bool.not_true, Bool.false_eq_true, if_false, if_neg hne, Option.getD_some, hdoc]
    simp only [zero_add]

/-- Witness for C9 at a negative and an oversized limit. -/
theorem C9_limit_clamped_witness :
    listSitemapUrls [] "https://example.com/sitemap.xml" (some (-7)) none =
      listSitemapUrls [] "https://example.com/sitemap.xml" (some (min (max 1 (-7)) 1000)) none ∧
    (listSitemapUrls [] "https://example.com/sitemap.xml" (some 5000) none).isInvalidInput
      = false :=
  ⟨(C9_limit_clamped [] "https://example.com/sitemap.xml" (-7) (by rfl)).1,
   (C9_limit_clamped [] "https://example.com/sitemap.xml" 5000 (by rfl)).2.2.2.1⟩

/-! ## Claim C8 -/

/-- C8: a timeout on an individual candidate probe (Discoverer) or on a
document inside the Frontier Builder's recursion is swallowed — the
candidate reports not-found, the document is skipped with zero processed
count, and discovery still returns a success envelope — while a timeout
on the Enumerator's single required fetch propagates as a TIMEOUT error
envelope. -/
theorem C8_timeout_handling (w : World) (df : DiscoveredFrom) :
    (∀ url, worldFetch w url = some .timeout → checkSitemap w url df = (none, [url])) ∧
    (∀ rules fuel url visited maxUrls, worldFetch w url = some .timeout → url ∉ visited →
      collectUrlsFromSitemap w rules (fuel + 1) url visited maxUrls =
        ⟨[], 0, url :: visited, [url]⟩) ∧
    (∀ seed nu, normalizeUrl seed = some nu → (discoverSitemaps w seed).1.isOk = true) ∧
    (∀ url limit, isValidUrl url = true → worldFetch w url = some .timeout →
      listSitemapUrls w url limit none =
        .err .TIMEOUT ("Request timed out while fetching sitemap: " ++ url)) := by
  refine ⟨?_, ?_, ?_, ?_⟩
  · intro url h
    unfold checkSitemap
    rw [h]
  · intro rules fuel url visited maxUrls h hnv
    have hfetch : fetchSitemap w url = .error .timeout := by
      unfold fetchSitemap
      rw [h]
    unfold collectUrlsFromSitemap
    rw [if_neg hnv, hfetch]
  · intro seed nu hn
    have hne : ¬ seed = "" := by
      intro e
      rw [e, show normalizeUrl "" = none from rfl] at hn
      exact nomatch hn
    unfold discoverSitemaps
    rw [if_neg hne, hn]
    rfl
  · intro url limit hv htime
    have hne : ¬ url = "" := by
      intro e
      rw [e] at hv
      exact absurd hv (by decide)
    have hfetch : fetchSitemap w url = .error .timeout := by
      unfold fetchSitemap
      rw [htime]
    unfold listSitemapUrls
    rw [hv]
    simp only [Bool.not_true, Bool.false_eq_true, if_false, if_neg hne, hfetch]
    rfl

/-- Witness for C8 on a world whose only URL times out. -/
theorem C8_timeout_handling_witness :
    checkSitemap [("https://example.com/sitemap.xml", FetchOutcome.timeout)]
      "https://example.com/sitemap.xml" .standard_location =
      (none, ["https://example.com/sitemap.xml"]) ∧
    collectUrlsFromSitemap [("https://example.com/sitemap.xml", FetchOutcome.timeout)]
      ⟨some [], some [], some 5000⟩ 3 "https://example.com/sitemap.xml" [] 5000 =
      ⟨[], 0, ["https://example.com/sitemap.xml"], ["https://example.com/sitemap.xml"]⟩ ∧
    (discoverSitemaps [("https://example.com/sitemap.xml", FetchOutcome.timeout)]
      "https://example.com").1.isOk = true ∧
    listSitemapUrls [("https://example.com/sitemap.xml", FetchOutcome.timeout)]
      "https://example.com/sitemap.xml" (some 10) none =
      .err .TIMEOUT "Request timed out while fetching sitemap: https://example.com/sitemap.xml" := by
  refine ⟨(C8_timeout_handling _ .standard_location).1 _ (by rfl),
    (C8_timeout_handling _ .standard_location).2.1 ⟨some [], some [], some 5000⟩ 2 _ [] 5000
      (by rfl) (by simp),
    (C8_timeout_handling _ .standard_location).2.2.1 "https://example.com" "https://example.com"
      (by rfl),
    ?_⟩
  have h := (C8_timeout_handling
    [("https://example.com/sitemap.xml", FetchOutcome.timeout)] .standard_location).2.2.2
    "https://example.com/sitemap.xml" (some 10) (by rfl) (by rfl)
  rw [h]
  rfl


/-! ## Claim C4 -/

theorem jsSlice_nat {α : Type} (l : List α) (a b : Nat) :
    jsSlice l (a : Int) (b : Int) = (l.drop a).take (b - a) := by
  unfold jsSlice
  simp only []
  rw [if_neg (by omega : ¬((a : Int) < 0)), if_neg (by omega : ¬((b : Int) < 0))]
  have hs : (min (a : Int) (l.length : Int)).toNat = min a l.length := by omega
  have he : (min (b : Int) (l.length : Int)).toNat = min b l.length := by omega
  by_cases hal : a ≤ l.length
  · have h1 : (min (b : Int) (l.length : Int) - min (a : Int) (l.length : Int)).toNat =
        min b l.length - a := by omega
    rw [h1]
    have h2 : (min (a : Int) (l.length : Int)).toNat = a := by omega
    rw [h2]
    rw [List.take_eq_take]
    simp only [List.length_drop]
    omega
  · have h1 : (min (a : Int) (l.length : Int)).toNat = l.length := by omega
    rw [h1, List.drop_length, List.drop_eq_nil_of_le (by omega)]
    simp

theorem encodeCursor_ne_empty (c : CursorData) : encodeCursor c ≠ "" := by
  intro h
  obtain ⟨r, hr⟩ := cursorJsonBytes_head c
  have hdata : base64urlEncode (cursorJsonBytes c) = [] := congrArg String.data h
  rw [hr] at hdata
  obtain ⟨t, ht⟩ := base64urlEncode_head 123 r
  rw [ht] at hdata
  exact nomatch hdata

theorem jvalOffset_cursor (o : Int) : jvalOffset (cursorToJVal ⟨o, none⟩) = some o := by
  unfold jvalOffset cursorToJVal
  simp [List.find?_cons]

/-- C4: with the page size p = min(max(1, limit or 100), 1000) and offset
o (0 without a cursor, the encoded offset with one), the Enumerator
returns exactly the entries at positions [o, o+p) of the full ordered
entry list, and a next cursor encoding o+p exactly when o+p is below the
total count, else a null cursor. -/
theorem C4_list_pagination (w : World) (url : String) (limit : Option Int)
    (cursor : Option String) (o : Nat) (content : List Char) (doc : SitemapDoc)
    (hv : isValidUrl url = true)
    (hf : worldFetch w url = some (.success content (some doc)))
    (hc : (cursor = none ∧ o = 0) ∨ cursor = some (encodeCursor ⟨(o : Int), none⟩)) :
    listSitemapUrls w url limit cursor =
      .ok ⟨url, (doc.urls.drop o).take (min (max 1 (limit.getD 100)) 1000).toNat,
        ((doc.urls.drop o).take (min (max 1 (limit.getD 100)) 1000).toNat).length,
        doc.isIndex⟩
        ⟨some url,
          some (if o + (min (max 1 (limit.getD 100)) 1000).toNat < doc.urls.length then
            some (encodeCursor ⟨((o + (min (max 1 (limit.getD 100)) 1000).toNat : Nat) : Int),
              none⟩)
          else none), []⟩ := by
  have hne : ¬ url = "" := by
    intro e
    rw [e] at hv
    exact absurd hv (by decide)
  have hdoc : fetchSitemap w url = .ok doc := by
    unfold fetchSitemap
    rw [hf]
  have hp : (1 : Int) ≤ min (max 1 (limit.getD 100)) 1000 := by omega
  have hpn : ((min (max 1 (limit.getD 100)) 1000).toNat : Int) =
      min (max 1 (limit.getD 100)) 1000 := by omega
  unfold listSitemapUrls
  rw [hv]
  simp only [Bool.not_true, Bool.false_eq_true, if_false, if_neg hne, hdoc]
  have hoffs : (match cursor with
      | some c =>
          if c ≠ "" then
            match decodeCursor c with
            | none => Except.error (Response.err (α := ListSitemapUrlsData) .INVALID_INPUT
                "Invalid cursor format")
            | some j => Except.ok (jvalOffset j)
          else Except.ok (some (0 : Int))
      | none => Except.ok (some (0 : Int))) = Except.ok (some (o : Int)) := by
    rcases hc with ⟨hcn, ho⟩ | hcs
    · rw [hcn, ho]
      rfl
    · rw [hcs]
      simp only []
      rw [if_pos (encodeCursor_ne_empty ⟨(o : Int), none⟩)]
      rw [cursor_roundtrip ⟨(o : Int), none⟩ (by simp) (fun u h => nomatch h)]
      simp only []
      rw [jvalOffset_cursor]
  rw [hoffs]
  simp only []
  have hslice : jsSlice doc.urls (o : Int) ((o : Int) + min (max 1 (limit.getD 100)) 1000) =
      (doc.urls.drop o).take (min (max 1 (limit.getD 100)) 1000).toNat := by
    have : (o : Int) + min (max 1 (limit.getD 100)) 1000 =
        ((o + (min (max 1 (limit.getD 100)) 1000).toNat : Nat) : Int) := by omega
    rw [this, jsSlice_nat]
    congr 1
    omega
  rw [hslice]
  have hmore : ((o : Int) + min (max 1 (limit.getD 100)) 1000 < (doc.urls.length : Int)) =
      (o + (min (max 1 (limit.getD 100)) 1000).toNat < doc.urls.length) := by
    apply propext
    omega
  simp only [hmore]
  by_cases hcase : o + (min (max 1 (limit.getD 100)) 1000).toNat < doc.urls.length
  · rw [if_pos hcase, if_pos hcase]
    have : (o : Int) + min (max 1 (limit.getD 100)) 1000 =
        ((o + (min (max 1 (limit.getD 100)) 1000).toNat : Nat) : Int) := by omega
    rw [this]
  · rw [if_neg hcase, if_neg hcase]

set_option maxRecDepth 10000 in
/-- Witness for C4: on a 150-entry sitemap, limit 100 yields the first
hundred entries and a next cursor encoding offset 100; the follow-up call
with that cursor yields the remaining fifty and a null cursor. -/
theorem C4_list_pagination_witness :
    listSitemapUrls
      [("https://example.com/sitemap.xml", FetchOutcome.success []
        (some ⟨List.replicate 150 ⟨"x", none, none, none⟩, false, []⟩))]
      "https://example.com/sitemap.xml" (some 100) none =
      .ok ⟨"https://example.com/sitemap.xml", List.replicate 100 ⟨"x", none, none, none⟩,
          100, false⟩
        ⟨some "https://example.com/sitemap.xml",
          some (some (encodeCursor ⟨((100 : Nat) : Int), none⟩)), []⟩ ∧
    listSitemapUrls
      [("https://example.com/sitemap.xml", FetchOutcome.success []
        (some ⟨List.replicate 150 ⟨"x", none, none, none⟩, false, []⟩))]
      "https://example.com/sitemap.xml" (some 100)
      (some (encodeCursor ⟨((100 : Nat) : Int), none⟩)) =
      .ok ⟨"https://example.com/sitemap.xml", List.replicate 50 ⟨"x", none, none, none⟩,
          50, false⟩
        ⟨some "https://example.com/sitemap.xml", some none, []⟩ := by
  constructor
  · rw [C4_list_pagination _ _ (some 100) none 0 []
      ⟨List.replicate 150 ⟨"x", none, none, none⟩, false, []⟩ (by rfl) (by rfl)
      (Or.inl ⟨rfl, rfl⟩)]
    rfl
  · rw [C4_list_pagination _ _ (some 100) _ 100 []
      ⟨List.replicate 150 ⟨"x", none, none, none⟩, false, []⟩ (by rfl) (by rfl)
      (Or.inr rfl)]
    rfl


/-! ## Claim C7 -/

/-- C7: when discovery succeeds with zero sitemaps, the frontier build is
a success envelope with an empty frontier, zero totals, and a warning
that no sitemaps were found — not an error. -/
theorem C7_zero_sitemaps_success (w : World) (seed nu : String)
    (rules : Option CrawlFrontierRules) (limit : Option Int)
    (ddata : DiscoverSitemapsData) (dmeta : ResponseMeta) (dlog : List String)
    (hn : normalizeUrl seed = some nu)
    (hinc : "" ∉ (rules.bind (fun r => r.«include»)).getD [])
    (hexc : "" ∉ (rules.bind (fun r => r.exclude)).getD [])
    (hd : discoverSitemaps w nu = (.ok ddata dmeta, dlog))
    (hempty : ddata.sitemaps = []) :
    buildCrawlFrontier w seed rules limit =
      (.ok ⟨nu, [], 0, 0, ⟨some ((rules.bind (fun r => r.«include»)).getD []),
          some ((rules.bind (fun r => r.exclude)).getD []),
          some (min ((rules.bind (fun r => r.max_urls)).getD 5000) 10000)⟩⟩
        ⟨some nu, none, ["No sitemaps found for this domain. Frontier is empty."]⟩, dlog) ∧
    containsSub (strChars "No sitemaps")
      (strChars "No sitemaps found for this domain. Frontier is empty.") = true := by
  have hne : ¬ seed = "" := by
    intro e
    rw [e, show normalizeUrl "" = none from rfl] at hn
    exact nomatch hn
  refine ⟨?_, by decide⟩
  unfold buildCrawlFrontier
  rw [if_neg hne, hn]
  simp only []
  rw [if_neg, if_neg]
  · rw [hd]
    simp only []
    rw [hempty]
    rfl
  · simp only [List.any_eq_true, decide_eq_true_eq, not_exists, not_and]
    intro p hp he
    subst he
    exact hexc hp
  · simp only [List.any_eq_true, decide_eq_true_eq, not_exists, not_and]
    intro p hp he
    subst he
    exact hinc hp

/-- Witness for C7: an empty world has no discoverable sitemaps. -/
theorem C7_zero_sitemaps_success_witness :
    buildCrawlFrontier [] "https://example.com" none none =
      (.ok ⟨"https://example.com", [], 0, 0, ⟨some [], some [], some 5000⟩⟩
        ⟨some "https://example.com", none,
          ["No sitemaps found for this domain. Frontier is empty."]⟩,
        ["https://example.com/sitemap.xml", "https://example.com/robots.txt",
          "https://example.com/sitemap_index.xml", "https://example.com/sitemap.xml.gz",
          "https://example.com/sitemaps/sitemap.xml"]) :=
  (C7_zero_sitemaps_success [] "https://example.com" "https://example.com" none none
    ⟨"https://example.com", [], false⟩
    ⟨some "https://example.com", none, ["No sitemaps found for this domain"]⟩
    ["https://example.com/sitemap.xml", "https://example.com/robots.txt",
      "https://example.com/sitemap_index.xml", "https://example.com/sitemap.xml.gz",
      "https://example.com/sitemaps/sitemap.xml"]
    (by rfl) (by simp) (by simp) (by rfl) (by rfl)).1


/-! ## Frontier collection bounds (for C1) -/

theorem leafLoop_len (rules : CrawlFrontierRules) (src : String) (m : Int) :
    ∀ (entries : List SitemapEntry) (acc : List FrontierUrl),
      ((leafLoop rules src m entries acc).length : Int) ≤ max (acc.length : Int) m := by
  intro entries
  induction entries with
  | nil =>
      intro acc
      simp only [leafLoop]
      omega
  | cons e rest ih =>
      intro acc
      unfold leafLoop
      by_cases hstop : m ≤ (acc.length : Int)
      · rw [if_pos hstop]
        omega
      · rw [if_neg hstop]
        by_cases hpass : passesFilters e.loc rules = true
        · rw [if_pos hpass]
          have := ih (acc ++ [⟨e.loc, src, e.lastmod, e.priority⟩])
          simp only [List.length_append, List.length_cons, List.length_nil] at this
          omega
        · rw [if_neg hpass]
          have := ih acc
          omega

theorem foldl_collectChildStep_len (collectF : String → List String → Int → CollectResult)
    (b : Int)
    (hP : ∀ u v bb, (((collectF u v bb).urls.length : Int) ≤ max bb 0)) :
    ∀ (children : List String) (st : CollectResult),
      ((st.urls.length : Int) ≤ max b 0) →
      (((children.foldl (collectChildStep collectF b) st).urls.length : Int) ≤ max b 0) := by
  intro children
  induction children with
  | nil =>
      intro st hst
      simpa using hst
  | cons c rest ih =>
      intro st hst
      rw [List.foldl_cons]
      apply ih
      unfold collectChildStep
      by_cases hstop : b ≤ (st.urls.length : Int)
      · rw [if_pos hstop]
        exact hst
      · rw [if_neg hstop]
        have hc := hP c st.visited (b - st.urls.length)
        simp only [List.length_append]
        omega

theorem collect_len (w : World) (rules : CrawlFrontierRules) :
    ∀ (fuel : Nat) (url : String) (visited : List String) (b : Int),
      (((collectUrlsFromSitemap w rules fuel url visited b).urls.length : Int) ≤ max b 0) := by
  intro fuel
  induction fuel with
  | zero =>
      intro url visited b
      simp [collectUrlsFromSitemap]
  | succ f ih =>
      intro url visited b
      unfold collectUrlsFromSitemap
      by_cases hv : url ∈ visited
      · rw [if_pos hv]
        simp
      · rw [if_neg hv]
        match hf : fetchSitemap w url with
        | .error e =>
            simp
        | .ok doc =>
            simp only []
            by_cases hidx : doc.isIndex = true
            · rw [if_pos hidx]
              apply foldl_collectChildStep_len _ b (fun u v bb => ih u v bb)
              simp
            · rw [if_neg hidx]
              have := leafLoop_len rules url b doc.urls []
              simp only [List.length_nil] at this
              show ((leafLoop rules url b doc.urls []).length : Int) ≤ max b 0
              omega

theorem frontierLoop_len (w : World) (rules : CrawlFrontierRules) (b : Int) :
    ∀ (sms : List DiscoveredSitemap)
      (st : List FrontierUrl × Nat × List String × List String),
      ((st.1.length : Int) ≤ max b 0) →
      (((frontierLoop w rules b sms st).1.length : Int) ≤ max b 0) := by
  intro sms
  induction sms with
  | nil =>
      intro st hst
      simpa [frontierLoop] using hst
  | cons sm rest ih =>
      intro st hst
      obtain ⟨allUrls, processed, visited, log⟩ := st
      unfold frontierLoop
      by_cases hstop : b ≤ (allUrls.length : Int)
      · rw [if_pos hstop]
        exact hst
      · rw [if_neg hstop]
        apply ih
        have hc := collect_len w rules (discoverFuel w) sm.url visited (b - allUrls.length)
        simp only [List.length_append] at *
        omega

/-! ## Deduplication (for C1) -/

theorem dedupeFrontier_nodup : ∀ (l : List FrontierUrl) (seen : List String),
    ((dedupeFrontier l seen).map FrontierUrl.url).Nodup ∧
    (∀ e ∈ dedupeFrontier l seen, e.url ∉ seen) := by
  intro l
  induction l with
  | nil =>
      intro seen
      simp [dedupeFrontier]
  | cons e rest ih =>
      intro seen
      unfold dedupeFrontier
      by_cases hmem : e.url ∈ seen
      · rw [if_pos hmem]
        exact ih seen
      · rw [if_neg hmem]
        obtain ⟨ihn, ihs⟩ := ih (e.url :: seen)
        refine ⟨?_, ?_⟩
        · simp only [List.map_cons, List.nodup_cons]
          refine ⟨?_, ihn⟩
          intro hcontra
          obtain ⟨x, hx, hxu⟩ := List.mem_map.mp hcontra
          have := ihs x hx
          rw [hxu] at this
          exact this (by simp)
        · intro x hx
          rcases List.mem_cons.mp hx with rfl | hx2
          · exact hmem
          · have := ihs x hx2
            intro hseen
            exact this (by simp [hseen])

theorem dedupeFrontier_sublist : ∀ (l : List FrontierUrl) (seen : List String),
    (dedupeFrontier l seen).Sublist l := by
  intro l
  induction l with
  | nil => intro seen; simp [dedupeFrontier]
  | cons e rest ih =>
      intro seen
      unfold dedupeFrontier
      by_cases hmem : e.url ∈ seen
      · rw [if_pos hmem]
        exact (ih seen).cons e
      · rw [if_neg hmem]
        exact (ih (e.url :: seen)).cons₂ e

theorem dedupeFrontier_find? : ∀ (l : List FrontierUrl) (seen : List String) (u : String),
    u ∉ seen →
    (dedupeFrontier l seen).find? (fun e => e.url == u) = l.find? (fun e => e.url == u) := by
  intro l
  induction l with
  | nil => intro seen u _; rfl
  | cons e rest ih =>
      intro seen u hu
      unfold dedupeFrontier
      by_cases hmem : e.url ∈ seen
      · rw [if_pos hmem]
        have hne : (e.url == u) = false := by
          simp only [beq_eq_false_iff_ne, ne_eq]
          intro he
          rw [he] at hmem
          exact hu hmem
        rw [List.find?_cons_of_neg _ (by simp [hne]), ih seen u hu]
      · rw [if_neg hmem]
        by_cases heq : e.url = u
        · rw [List.find?_cons_of_pos _ (by simp [heq]), List.find?_cons_of_pos _ (by simp [heq])]
        · rw [List.find?_cons_of_neg _ (by simp [heq]), List.find?_cons_of_neg _ (by simp [heq])]
          exact ih (e.url :: seen) u
            (by simp only [List.mem_cons, not_or]; exact ⟨fun h => heq h.symm, hu⟩)


/-! ## Claim C1 -/

/-- C1, amended with nonnegative limits.  Whenever the requested limit
and the supplied `maxUrls` are nonnegative, a successful frontier build
returns pairwise-distinct URLs, at most
min(requested limit or maxUrls, maxUrls, 10000) of them (maxUrls
defaulting to 5000), and the frontier is the first-occurrence,
order-preserving deduplication of the collected URL list; a truncation
that drops entries appends the truncation warning (the collection loop
already stops at the effective limit, so the antecedent never fires).
Negative limits break the cap, see `C1_negative_limit_cex`. -/
theorem C1_frontier_dedup_cap (w : World) (seed : String) (rules : Option CrawlFrontierRules)
    (limit : Option Int) (data : BuildCrawlFrontierData) (meta : ResponseMeta)
    (lg : List String)
    (hm : 0 ≤ (rules.bind (fun r => r.max_urls)).getD 5000)
    (hl : ∀ x, limit = some x → 0 ≤ x)
    (hb : buildCrawlFrontier w seed rules limit = (.ok data meta, lg)) :
    (data.frontier.map FrontierUrl.url).Nodup ∧
    (data.frontier.length : Int) ≤
      min (min (limit.getD ((rules.bind (fun r => r.max_urls)).getD 5000))
        ((rules.bind (fun r => r.max_urls)).getD 5000)) 10000 ∧
    (∃ collected : List FrontierUrl,
      data.frontier = dedupeFrontier collected [] ∧
      (dedupeFrontier collected []).Sublist collected ∧
      (∀ u, (dedupeFrontier collected []).find? (fun e => e.url == u) =
        collected.find? (fun e => e.url == u)) ∧
      (data.frontier.length < (dedupeFrontier collected []).length →
        truncationWarning ((data.frontier.length : Int))
          (dedupeFrontier collected []).length ∈ meta.warnings)) := by
  have heffpos : 0 ≤ min (limit.getD (min ((rules.bind (fun r => r.max_urls)).getD 5000) 10000))
      (min ((rules.bind (fun r => r.max_urls)).getD 5000) 10000) := by
    cases hll : limit with
    | none => simp only [Option.getD_none]; omega
    | some x =>
        have := hl x hll
        simp only [Option.getD_some]
        omega
  have hformula : min (limit.getD (min ((rules.bind (fun r => r.max_urls)).getD 5000) 10000))
      (min ((rules.bind (fun r => r.max_urls)).getD 5000) 10000) =
      min (min (limit.getD ((rules.bind (fun r => r.max_urls)).getD 5000))
        ((rules.bind (fun r => r.max_urls)).getD 5000)) 10000 := by
    cases limit with
    | none => simp only [Option.getD_none]; omega
    | some x => simp only [Option.getD_some]; omega
  unfold buildCrawlFrontier at hb
  split at hb
  · exact absurd hb (by simp)
  · split at hb
    · exact absurd hb (by simp)
    · rename_i nu hnu
      simp only [] at hb
      split at hb
      · exact absurd hb (by simp)
      · split at hb
        · exact absurd hb (by simp)
        · split at hb
          · exact absurd hb (by simp)
          · rename_i ddata dmeta dlog hdisc
            split at hb
            · rw [Prod.mk.injEq, Response.ok.injEq] at hb
              obtain ⟨⟨hdata, hmeta⟩, hlog⟩ := hb
              subst hdata
              refine ⟨by simp, ?_, [], rfl, by simp [dedupeFrontier], fun u => rfl,
                by simp [dedupeFrontier]⟩
              simp only [List.length_nil, Nat.cast_zero, ← hformula]
              exact heffpos
            · rw [Prod.mk.injEq, Response.ok.injEq] at hb
              obtain ⟨⟨hdata, hmeta⟩, hlog⟩ := hb
              have hcoll := frontierLoop_len w
                ⟨some ((rules.bind (fun r => r.«include»)).getD []),
                 some ((rules.bind (fun r => r.exclude)).getD []),
                 some (min ((rules.bind (fun r => r.max_urls)).getD 5000) 10000)⟩
                (min (limit.getD (min ((rules.bind (fun r => r.max_urls)).getD 5000) 10000))
                  (min ((rules.bind (fun r => r.max_urls)).getD 5000) 10000))
                ddata.sitemaps ([], 0, [], []) (by simp)
              set eff := min (limit.getD (min ((rules.bind (fun r => r.max_urls)).getD 5000) 10000))
                (min ((rules.bind (fun r => r.max_urls)).getD 5000) 10000) with heffdef
              set st := frontierLoop w
                ⟨some ((rules.bind (fun r => r.«include»)).getD []),
                 some ((rules.bind (fun r => r.exclude)).getD []),
                 some (min ((rules.bind (fun r => r.max_urls)).getD 5000) 10000)⟩
                eff ddata.sitemaps ([], 0, [], []) with hstdef
              have hdlen : ((dedupeFrontier st.1 []).length : Int) ≤ eff := by
                have hsub := (dedupeFrontier_sublist st.1 []).length_le
                omega
              have hslice : jsSlice (dedupeFrontier st.1 []) 0 eff = dedupeFrontier st.1 [] := by
                unfold jsSlice
                simp only []
                rw [if_neg (by omega : ¬(0 : Int) < 0), if_neg (by omega : ¬eff < 0)]
                rw [show min (0 : Int) ((dedupeFrontier st.1 []).length : Int) = 0 by omega]
                rw [show min eff ((dedupeFrontier st.1 []).length : Int) =
                  ((dedupeFrontier st.1 []).length : Int) by omega]
                simp
              rw [hslice] at hdata
              subst hdata
              refine ⟨?_, ?_, st.1, rfl, dedupeFrontier_sublist st.1 [],
                (fun u => dedupeFrontier_find? st.1 [] u (by simp)), ?_⟩
              · exact (dedupeFrontier_nodup st.1 []).1
              · simp only [← hformula]
                exact hdlen
              · simp only []
                intro hcontra
                omega


/-- Witness for C1: a sitemap carrying a duplicate URL yields a
deduplicated two-entry frontier within the cap. -/
theorem C1_frontier_dedup_cap_witness :
    ((⟨"https://example.com",
        [⟨"https://example.com/a", "https://example.com/sitemap.xml", none, none⟩,
         ⟨"https://example.com/b", "https://example.com/sitemap.xml", none, none⟩], 2, 1,
        ⟨some [], some [], some 5000⟩⟩ : BuildCrawlFrontierData).frontier.map
      FrontierUrl.url).Nodup ∧
    ((⟨"https://example.com",
        [⟨"https://example.com/a", "https://example.com/sitemap.xml", none, none⟩,
         ⟨"https://example.com/b", "https://example.com/sitemap.xml", none, none⟩], 2, 1,
        ⟨some [], some [], some 5000⟩⟩ : BuildCrawlFrontierData).frontier.length : Int) ≤
      min (min (((none : Option Int)).getD
          ((((none : Option CrawlFrontierRules)).bind (fun r => r.max_urls)).getD 5000))
        ((((none : Option CrawlFrontierRules)).bind (fun r => r.max_urls)).getD 5000)) 10000 :=
  ((C1_frontier_dedup_cap
    [("https://example.com/sitemap.xml", .success (strChars "<urlset")
      (some ⟨[⟨"https://example.com/a", none, none, none⟩,
              ⟨"https://example.com/a", none, none, none⟩,
              ⟨"https://example.com/b", none, none, none⟩], false, []⟩))]
    "https://example.com" none none
    ⟨"https://example.com",
      [⟨"https://example.com/a", "https://example.com/sitemap.xml", none, none⟩,
       ⟨"https://example.com/b", "https://example.com/sitemap.xml", none, none⟩], 2, 1,
      ⟨some [], some [], some 5000⟩⟩
    ⟨some "https://example.com", none, []⟩
    ["https://example.com/sitemap.xml", "https://example.com/robots.txt",
     "https://example.com/sitemap_index.xml", "https://example.com/sitemap.xml.gz",
     "https://example.com/sitemaps/sitemap.xml", "https://example.com/sitemap.xml"]
    (by decide) (fun x h => nomatch h) (by rfl)).imp id (fun h => h.1))

/-- Counterexample to C1 as stated: with a negative requested limit the
build still succeeds, the effective-limit formula evaluates to the
negative limit, and the (empty) frontier exceeds it. -/
theorem C1_negative_limit_cex :
    buildCrawlFrontier [] "https://example.com" none (some (-1)) =
      (.ok ⟨"https://example.com", [], 0, 0, ⟨some [], some [], some 5000⟩⟩
        ⟨some "https://example.com", none,
          ["No sitemaps found for this domain. Frontier is empty."]⟩,
        ["https://example.com/sitemap.xml", "https://example.com/robots.txt",
         "https://example.com/sitemap_index.xml", "https://example.com/sitemap.xml.gz",
         "https://example.com/sitemaps/sitemap.xml"]) ∧
    ¬ ((((⟨"https://example.com", [], 0, 0, ⟨some [], some [], some 5000⟩⟩ :
        BuildCrawlFrontierData).frontier.length : Int)) ≤
      min (min (((some (-1 : Int))).getD
          ((((none : Option CrawlFrontierRules)).bind (fun r => r.max_urls)).getD 5000))
        ((((none : Option CrawlFrontierRules)).bind (fun r => r.max_urls)).getD 5000)) 10000) := by
  constructor
  · rfl
  · decide


/-! ## Collection fetch-log discipline (for C5) -/

theorem foldl_inv {α β : Type} (P : β → Prop) (f : β → α → β)
    (h : ∀ st x, P st → P (f st x)) : ∀ (l : List α) (st : β), P st → P (l.foldl f st) := by
  intro l
  induction l with
  | nil => intro st hst; exact hst
  | cons x xs ih =>
      intro st hst
      rw [List.foldl_cons]
      exact ih (f st x) (h st x hst)

theorem collect_log_spec (w : World) (rules : CrawlFrontierRules) :
    ∀ (fuel : Nat) (url : String) (visited : List String) (b : Int),
      (collectUrlsFromSitemap w rules fuel url visited b).log.Nodup ∧
      (∀ u ∈ (collectUrlsFromSitemap w rules fuel url visited b).log, u ∉ visited) ∧
      (∀ u ∈ (collectUrlsFromSitemap w rules fuel url visited b).log,
        u ∈ (collectUrlsFromSitemap w rules fuel url visited b).visited) ∧
      (∀ u ∈ visited, u ∈ (collectUrlsFromSitemap w rules fuel url visited b).visited) := by
  intro fuel
  induction fuel with
  | zero =>
      intro url visited b
      simp [collectUrlsFromSitemap]
  | succ f ih =>
      intro url visited b
      unfold collectUrlsFromSitemap
      by_cases hv : url ∈ visited
      · rw [if_pos hv]
        simp
      · rw [if_neg hv]
        match hf : fetchSitemap w url with
        | .error e =>
            refine ⟨by simp, ?_, ?_, ?_⟩ <;> simp_all
        | .ok doc =>
            simp only []
            by_cases hidx : doc.isIndex = true
            · rw [if_pos hidx]
              have hJ := foldl_inv
                (fun st : CollectResult =>
                  st.log.Nodup ∧ (∀ u ∈ st.log, u ∉ visited) ∧
                  (∀ u ∈ st.log, u ∈ st.visited) ∧ (∀ u ∈ visited, u ∈ st.visited) ∧
                  url ∈ st.visited)
                (collectChildStep (fun u v b => collectUrlsFromSitemap w rules f u v b) b)
                ?_ doc.indexUrls ⟨[], 1, url :: visited, [url]⟩ ?_
              · exact ⟨hJ.1, hJ.2.1, hJ.2.2.1, fun u hu => hJ.2.2.2.1 u hu⟩
              · intro st c hst
                obtain ⟨hnd, hfresh, hlv, hsup, hurl⟩ := hst
                unfold collectChildStep
                by_cases hstop : b ≤ (st.urls.length : Int)
                · rw [if_pos hstop]
                  exact ⟨hnd, hfresh, hlv, hsup, hurl⟩
                · rw [if_neg hstop]
                  obtain ⟨cnd, cfresh, clv, csup⟩ := ih c st.visited (b - st.urls.length)
                  simp only []
                  refine ⟨?_, ?_, ?_, ?_, ?_⟩
                  · rw [List.nodup_append]
                    refine ⟨hnd, cnd, ?_⟩
                    intro u hu hu2
                    exact cfresh u hu2 (hlv u hu)
                  · intro u hu
                    rcases List.mem_append.mp hu with h1 | h1
                    · exact hfresh u h1
                    · intro hcontra
                      exact cfresh u h1 (hsup u hcontra)
                  · intro u hu
                    rcases List.mem_append.mp hu with h1 | h1
                    · exact csup u (hlv u h1)
                    · exact clv u h1
                  · intro u hu
                    exact csup u (hsup u hu)
                  · exact csup url hurl
              · refine ⟨by simp, ?_, by simp, by intro u hu; exact List.mem_cons_of_mem _ hu, by simp⟩
                intro u hu
                simp only [List.mem_singleton] at hu
                subst hu
                exact hv
            · rw [if_neg hidx]
              refine ⟨by simp, ?_, by simp, by intro u hu; exact List.mem_cons_of_mem _ hu⟩
              intro u hu
              simp only [List.mem_singleton] at hu
              subst hu
              exact hv


theorem filter_length_le_of_imp {α : Type} (p q : α → Bool)
    (h : ∀ x, q x = true → p x = true) :
    ∀ l : List α, (l.filter q).length ≤ (l.filter p).length := by
  intro l
  induction l with
  | nil => simp
  | cons x xs ih =>
      by_cases hq : q x = true
      · rw [List.filter_cons_of_pos hq, List.filter_cons_of_pos (h x hq)]
        simpa using ih
      · rw [List.filter_cons_of_neg (by simpa using hq)]
        by_cases hp : p x = true
        · rw [List.filter_cons_of_pos hp]
          simp only [List.length_cons]
          omega
        · rw [List.filter_cons_of_neg (by simpa using hp)]
          exact ih

theorem filter_length_lt_of_imp {α : Type} (p q : α → Bool)
    (h : ∀ x, q x = true → p x = true) :
    ∀ (l : List α) (a : α), a ∈ l → p a = true → q a = false →
      (l.filter q).length < (l.filter p).length := by
  intro l
  induction l with
  | nil => intro a ha; simp at ha
  | cons x xs ih =>
      intro a ha hpa hqa
      rcases List.mem_cons.mp ha with rfl | ha'
      · rw [List.filter_cons_of_pos hpa, List.filter_cons_of_neg (by simp [hqa])]
        simp only [List.length_cons]
        have := filter_length_le_of_imp p q h xs
        omega
      · by_cases hq : q x = true
        · rw [List.filter_cons_of_pos hq, List.filter_cons_of_pos (h x hq)]
          simpa using ih a ha' hpa hqa
        · rw [List.filter_cons_of_neg (by simpa using hq)]
          by_cases hp : p x = true
          · rw [List.filter_cons_of_pos hp]
            have := ih a ha' hpa hqa
            simp only [List.length_cons]
            omega
          · rw [List.filter_cons_of_neg (by simpa using hp)]
            exact ih a ha' hpa hqa

theorem keysOutside_mono (w : World) (v v' : List String) (h : ∀ u ∈ v, u ∈ v') :
    keysOutside w v' ≤ keysOutside w v := by
  unfold keysOutside
  apply filter_length_le_of_imp
  intro x hx
  simp only [Bool.not_eq_true', decide_eq_false_iff_not] at hx ⊢
  intro hc
  exact hx (h x hc)

theorem keysOutside_lt (w : World) (url : String) (visited : List String)
    (hmem : url ∈ w.map Prod.fst) (hnv : url ∉ visited) :
    keysOutside w (url :: visited) < keysOutside w visited := by
  unfold keysOutside
  apply filter_length_lt_of_imp _ _ ?_ _ url hmem ?_ ?_
  · intro x hx
    simp only [Bool.not_eq_true', decide_eq_false_iff_not, List.mem_cons] at hx ⊢
    intro hc
    exact hx (Or.inr hc)
  · simp only [Bool.not_eq_true', decide_eq_false_iff_not]
    exact hnv
  · simp

theorem keysOutside_le (w : World) (v : List String) : keysOutside w v ≤ w.length := by
  unfold keysOutside
  calc ((w.map Prod.fst).filter _).length ≤ (w.map Prod.fst).length :=
        List.length_filter_le _ _
    _ = w.length := List.length_map _ _

theorem worldFetch_mem (w : World) (url : String) (o : FetchOutcome)
    (h : worldFetch w url = some o) : url ∈ w.map Prod.fst := by
  unfold worldFetch at h
  match hf : w.find? (fun p => p.1 == url) with
  | none => rw [hf] at h; simp at h
  | some pr =>
      have hmem := List.mem_of_find?_eq_some hf
      have hp := List.find?_some hf
      simp only [beq_iff_eq] at hp
      exact hp ▸ List.mem_map.mpr ⟨pr, hmem, rfl⟩

theorem fetchSitemap_mem (w : World) (url : String) (doc : SitemapDoc)
    (h : fetchSitemap w url = .ok doc) : url ∈ w.map Prod.fst := by
  unfold fetchSitemap at h
  match ho : worldFetch w url with
  | some o => exact worldFetch_mem w url o ho
  | none => rw [ho] at h; simp at h


theorem collectChildStep_eq (F : String → List String → Int → CollectResult) (b : Int)
    (st : CollectResult) (c : String) :
    collectChildStep F b st c =
      if b ≤ (st.urls.length : Int) then st
      else
        ⟨st.urls ++ (F c st.visited (b - st.urls.length)).urls,
         st.sitemapsProcessed + (F c st.visited (b - st.urls.length)).sitemapsProcessed,
         (F c st.visited (b - st.urls.length)).visited,
         st.log ++ (F c st.visited (b - st.urls.length)).log⟩ := rfl

theorem collect_stable_aux (w : World) (rules : CrawlFrontierRules) :
    ∀ n : Nat, ∀ visited : List String, keysOutside w visited < n →
      ∀ (f g : Nat) (url : String) (b : Int),
        keysOutside w visited < f → keysOutside w visited < g →
        collectUrlsFromSitemap w rules f url visited b =
        collectUrlsFromSitemap w rules g url visited b := by
  intro n
  induction n with
  | zero => intro visited h; omega
  | succ n ihn =>
      intro visited hn f g url b hf hg
      obtain ⟨f', rfl⟩ : ∃ f', f = f' + 1 := ⟨f - 1, by omega⟩
      obtain ⟨g', rfl⟩ : ∃ g', g = g' + 1 := ⟨g - 1, by omega⟩
      unfold collectUrlsFromSitemap
      by_cases hv : url ∈ visited
      · rw [if_pos hv, if_pos hv]
      · rw [if_neg hv, if_neg hv]
        match hfetch : fetchSitemap w url with
        | .error e => rfl
        | .ok doc =>
            simp only []
            by_cases hidx : doc.isIndex = true
            · rw [if_pos hidx, if_pos hidx]
              have hkey : url ∈ w.map Prod.fst := fetchSitemap_mem w url doc hfetch
              have hlt := keysOutside_lt w url visited hkey hv
              have hfold : ∀ (children : List String) (st : CollectResult),
                  (∀ u ∈ url :: visited, u ∈ st.visited) →
                  keysOutside w st.visited ≤ keysOutside w (url :: visited) →
                  children.foldl
                    (collectChildStep (fun u v b => collectUrlsFromSitemap w rules f' u v b) b) st =
                  children.foldl
                    (collectChildStep (fun u v b => collectUrlsFromSitemap w rules g' u v b) b) st := by
                intro children
                induction children with
                | nil => intro st _ _; rfl
                | cons c cs ihc =>
                    intro st hsup hμ
                    rw [List.foldl_cons, List.foldl_cons]
                    rw [collectChildStep_eq, collectChildStep_eq]
                    by_cases hstop : b ≤ (st.urls.length : Int)
                    · rw [if_pos hstop, if_pos hstop]
                      exact ihc st hsup hμ
                    · rw [if_neg hstop, if_neg hstop]
                      have hμlt : keysOutside w (url :: visited) < keysOutside w visited := hlt
                      have hrec : collectUrlsFromSitemap w rules f' c st.visited
                            (b - st.urls.length) =
                          collectUrlsFromSitemap w rules g' c st.visited
                            (b - st.urls.length) := by
                        apply ihn st.visited (by omega) f' g' c (b - st.urls.length)
                          (by omega) (by omega)
                      rw [hrec]
                      have hspec := collect_log_spec w rules g' c st.visited (b - st.urls.length)
                      apply ihc
                      · intro u hu
                        exact hspec.2.2.2 u (hsup u hu)
                      · calc keysOutside w
                              (collectUrlsFromSitemap w rules g' c st.visited
                                (b - st.urls.length)).visited ≤
                            keysOutside w st.visited :=
                              keysOutside_mono w st.visited _ hspec.2.2.2
                          _ ≤ keysOutside w (url :: visited) := hμ
              apply hfold
              · intro u hu
                exact hu
              · exact le_refl _
            · rw [if_neg hidx, if_neg hidx]

theorem collect_stable (w : World) (rules : CrawlFrontierRules) (url : String)
    (visited : List String) (b : Int) (extra : Nat) :
    collectUrlsFromSitemap w rules (discoverFuel w + extra) url visited b =
    collectUrlsFromSitemap w rules (discoverFuel w) url visited b := by
  have h1 : keysOutside w visited ≤ w.length := keysOutside_le w visited
  apply collect_stable_aux w rules (keysOutside w visited + 1) visited (by omega)
  · unfold discoverFuel
    omega
  · unfold discoverFuel
    omega


theorem discoverChildStep_eq (w : World) (F : String → List String → DiscState)
    (st : DiscState) (loc : String) :
    discoverChildStep w F st loc =
      if isValidUrl loc ∧ loc ∉ st.2.1 then
        match checkSitemap w loc .sitemap_index with
        | (some sm, lg) =>
            if sm.type = .sitemap_index then
              (st.1 ++ [sm] ++ (F loc st.2.1).1, (F loc st.2.1).2.1,
               st.2.2 ++ lg ++ (F loc st.2.1).2.2)
            else (st.1 ++ [sm], st.2.1, st.2.2 ++ lg)
        | (none, lg) => (st.1, st.2.1, st.2.2 ++ lg)
      else st := rfl

theorem dfsi_visited_sup (w : World) :
    ∀ (fuel : Nat) (u : String) (visited : List String),
      ∀ x ∈ visited, x ∈ (discoverFromSitemapIndex w fuel u visited).2.1 := by
  intro fuel
  induction fuel with
  | zero => intro u visited x hx; exact hx
  | succ f ih =>
      intro u visited x hx
      unfold discoverFromSitemapIndex
      by_cases hv : u ∈ visited
      · rw [if_pos hv]; exact hx
      · rw [if_neg hv]
        match hfetch : worldFetch w u with
        | some (.success c (some doc)) =>
            simp only []
            by_cases hidx : doc.isIndex = true
            · rw [if_pos hidx]
              have hJ := foldl_inv (fun st : DiscState => x ∈ st.2.1)
                (discoverChildStep w (fun u v => discoverFromSitemapIndex w f u v))
                ?_ doc.indexUrls ([], u :: visited, [u]) ?_
              · exact hJ
              · intro st loc hst
                rw [discoverChildStep_eq]
                by_cases hgd : isValidUrl loc ∧ loc ∉ st.2.1
                · rw [if_pos hgd]
                  match hcs : checkSitemap w loc .sitemap_index with
                  | (some sm, lg) =>
                      simp only []
                      by_cases hty : sm.type = .sitemap_index
                      · rw [if_pos hty]
                        exact ih loc st.2.1 x hst
                      · rw [if_neg hty]; exact hst
                  | (none, lg) => exact hst
                · rw [if_neg hgd]; exact hst
              · exact List.mem_cons_of_mem _ hx
            · rw [if_neg hidx]
              exact List.mem_cons_of_mem _ hx
        | some (.success c none) => exact List.mem_cons_of_mem _ hx
        | some .httpError => exact List.mem_cons_of_mem _ hx
        | some .timeout => exact List.mem_cons_of_mem _ hx
        | none => exact List.mem_cons_of_mem _ hx

theorem dfsi_stable_aux (w : World) :
    ∀ n : Nat, ∀ visited : List String, keysOutside w visited < n →
      ∀ (f g : Nat) (u : String),
        keysOutside w visited < f → keysOutside w visited < g →
        discoverFromSitemapIndex w f u visited =
        discoverFromSitemapIndex w g u visited := by
  intro n
  induction n with
  | zero => intro visited h; omega
  | succ n ihn =>
      intro visited hn f g u hf hg
      obtain ⟨f', rfl⟩ : ∃ f', f = f' + 1 := ⟨f - 1, by omega⟩
      obtain ⟨g', rfl⟩ : ∃ g', g = g' + 1 := ⟨g - 1, by omega⟩
      unfold discoverFromSitemapIndex
      by_cases hv : u ∈ visited
      · rw [if_pos hv, if_pos hv]
      · rw [if_neg hv, if_neg hv]
        match hfetch : worldFetch w u with
        | some (.success c (some doc)) =>
            simp only []
            by_cases hidx : doc.isIndex = true
            · rw [if_pos hidx, if_pos hidx]
              have hkey : u ∈ w.map Prod.fst := worldFetch_mem w u _ hfetch
              have hlt := keysOutside_lt w u visited hkey hv
              have hfold : ∀ (children : List String) (st : DiscState),
                  keysOutside w st.2.1 ≤ keysOutside w (u :: visited) →
                  children.foldl
                    (discoverChildStep w (fun a v => discoverFromSitemapIndex w f' a v)) st =
                  children.foldl
                    (discoverChildStep w (fun a v => discoverFromSitemapIndex w g' a v)) st := by
                intro children
                induction children with
                | nil => intro st _; rfl
                | cons loc cs ihc =>
                    intro st hμ
                    rw [List.foldl_cons, List.foldl_cons]
                    rw [discoverChildStep_eq, discoverChildStep_eq]
                    by_cases hgd : isValidUrl loc ∧ loc ∉ st.2.1
                    · rw [if_pos hgd, if_pos hgd]
                      match hcs : checkSitemap w loc .sitemap_index with
                      | (some sm, lg) =>
                          simp only []
                          by_cases hty : sm.type = .sitemap_index
                          · rw [if_pos hty, if_pos hty]
                            have hrec : discoverFromSitemapIndex w f' loc st.2.1 =
                                discoverFromSitemapIndex w g' loc st.2.1 := by
                              apply ihn st.2.1 (by omega) f' g' loc (by omega) (by omega)
                            rw [hrec]
                            apply ihc
                            calc keysOutside w
                                  (discoverFromSitemapIndex w g' loc st.2.1).2.1 ≤
                                keysOutside w st.2.1 :=
                                  keysOutside_mono w st.2.1 _ (dfsi_visited_sup w g' loc st.2.1)
                              _ ≤ keysOutside w (u :: visited) := hμ
                          · rw [if_neg hty, if_neg hty]
                            exact ihc _ hμ
                      | (none, lg) => exact ihc _ hμ
                    · rw [if_neg hgd, if_neg hgd]
                      exact ihc st hμ
              apply hfold
              exact le_refl _
            · rw [if_neg hidx, if_neg hidx]
        | some (.success c none) => rfl
        | some .httpError => rfl
        | some .timeout => rfl
        | none => rfl

theorem dfsi_stable (w : World) (u : String) (visited : List String) (extra : Nat) :
    discoverFromSitemapIndex w (discoverFuel w + extra) u visited =
    discoverFromSitemapIndex w (discoverFuel w) u visited := by
  have h1 : keysOutside w visited ≤ w.length := keysOutside_le w visited
  apply dfsi_stable_aux w (keysOutside w visited + 1) visited (by omega)
  · unfold discoverFuel
    omega
  · unfold discoverFuel
    omega


theorem dfsi_inert (w : World) (fuel : Nat) (u : String) (visited : List String)
    (h : u ∈ visited) : discoverFromSitemapIndex w fuel u visited = ([], visited, []) := by
  match fuel with
  | 0 => rfl
  | f + 1 =>
      unfold discoverFromSitemapIndex
      rw [if_pos h]

theorem checkSitemap_log (w : World) (u : String) (df : DiscoveredFrom) :
    (checkSitemap w u df).2 = [u] := by
  unfold checkSitemap
  match hfetch : worldFetch w u with
  | some (.success c p) => rfl
  | some .httpError => rfl
  | some .timeout => rfl
  | none => rfl

theorem checkSitemap_success (w : World) (u : String) (df : DiscoveredFrom)
    (c : List Char) (p : Option SitemapDoc) (h : worldFetch w u = some (.success c p)) :
    checkSitemap w u df =
      (some ⟨u, if containsSub (strChars "<sitemapindex") c ||
          containsSub (strChars "<sitemapindex>") c then .sitemap_index else .sitemap, df⟩,
        [u]) := by
  unfold checkSitemap
  rw [h]

theorem parseRobots_log (w : World) (r : String) :
    (parseSitemapsFromRobotsTxt w r).2 = [r] := by
  unfold parseSitemapsFromRobotsTxt
  match hfetch : worldFetch w r with
  | some (.success c p) => rfl
  | some .httpError => rfl
  | some .timeout => rfl
  | none => rfl

theorem candLoop_count (w : World) (df : DiscoveredFrom) (u : String)
    (c : List Char) (p : Option SitemapDoc) (hu : worldFetch w u = some (.success c p)) :
    ∀ (cands : List String) (st : DiscState),
      st.2.2.count u ≤ 1 → (u ∈ st.2.2 → u ∈ st.2.1) →
      (discoverCandidatesLoop w df cands st).2.2.count u ≤ 1 ∧
        (u ∈ (discoverCandidatesLoop w df cands st).2.2 →
          u ∈ (discoverCandidatesLoop w df cands st).2.1) := by
  intro cands
  induction cands with
  | nil => intro st h1 h2; exact ⟨h1, h2⟩
  | cons v rest ih =>
      intro st h1 h2
      obtain ⟨found, visited, log⟩ := st
      simp only [] at h1 h2
      unfold discoverCandidatesLoop
      by_cases hv : v ∈ visited
      · rw [if_pos hv]
        exact ih _ h1 h2
      · rw [if_neg hv]
        by_cases hvu : v = u
        · subst hvu
          rw [checkSitemap_success w v df c p hu]
          simp only []
          have hnl : v ∉ log := fun hc => hv (h2 hc)
          have hc0 : log.count v = 0 := List.count_eq_zero.mpr hnl
          by_cases hty :
              (⟨v, if containsSub (strChars "<sitemapindex") c ||
                  containsSub (strChars "<sitemapindex>") c then .sitemap_index
                else .sitemap, df⟩ : DiscoveredSitemap).type = .sitemap_index
          · rw [if_pos hty]
            rw [dfsi_inert w (discoverFuel w) v (v :: visited) (List.mem_cons_self v visited)]
            apply ih
            · simp only [List.append_nil, List.count_append, hc0, List.count_singleton]
              simp
            · intro hm
              exact List.mem_cons_self v visited
          · rw [if_neg hty]
            apply ih
            · simp only [List.count_append, hc0, List.count_singleton]
              simp
            · intro hm
              exact List.mem_cons_self v visited
        · match hcs : checkSitemap w v df with
          | (some sm, lg) =>
              have hlg : lg = [v] := by
                have := checkSitemap_log w v df
                rw [hcs] at this
                exact this
              subst hlg
              simp only []
              have hcnt : (log ++ [v]).count u = log.count u := by
                rw [List.count_append, List.count_singleton]
                simp [hvu]
              by_cases hty : sm.type = .sitemap_index
              · rw [if_pos hty]
                rw [dfsi_inert w (discoverFuel w) v (v :: visited) (List.mem_cons_self v visited)]
                apply ih
                · simp only [List.append_nil]
                  rw [hcnt]
                  exact h1
                · intro hm
                  simp only [List.append_nil, List.mem_append, List.mem_singleton] at hm
                  rcases hm with hm | hm
                  · exact List.mem_cons_of_mem _ (h2 hm)
                  · exact absurd hm.symm hvu
              · rw [if_neg hty]
                apply ih
                · rw [hcnt]
                  exact h1
                · intro hm
                  simp only [List.mem_append, List.mem_singleton] at hm
                  rcases hm with hm | hm
                  · exact List.mem_cons_of_mem _ (h2 hm)
                  · exact absurd hm.symm hvu
          | (none, lg) =>
              have hlg : lg = [v] := by
                have := checkSitemap_log w v df
                rw [hcs] at this
                exact this
              subst hlg
              simp only []
              apply ih
              · rw [List.count_append, List.count_singleton]
                simp [hvu, h1]
              · intro hm
                simp only [List.mem_append, List.mem_singleton] at hm
                rcases hm with hm | hm
                · exact h2 hm
                · exact absurd hm.symm hvu


theorem discover_count (w : World) (seed u : String) (c : List Char) (p : Option SitemapDoc)
    (hu : worldFetch w u = some (.success c p))
    (hrob : ∀ nu, normalizeUrl seed = some nu → u ≠ origin nu ++ "/robots.txt") :
    ((discoverSitemaps w seed).2.count u) ≤ 1 := by
  unfold discoverSitemaps
  by_cases hseed : seed = ""
  · rw [if_pos hseed]
    simp
  · rw [if_neg hseed]
    match hn : normalizeUrl seed with
    | none => simp
    | some nu =>
        simp only []
        have hru : u ≠ origin nu ++ "/robots.txt" := hrob nu hn
        rcases hc1 : checkSitemap w (origin nu ++ "/sitemap.xml") .standard_location
          with ⟨o, lg⟩
        have hlg : lg = [origin nu ++ "/sitemap.xml"] := by
          have := checkSitemap_log w (origin nu ++ "/sitemap.xml") .standard_location
          rw [hc1] at this
          exact this
        subst hlg
        rw [dfsi_inert w (discoverFuel w) (origin nu ++ "/sitemap.xml")
          [origin nu ++ "/sitemap.xml"] (List.mem_cons_self _ _)]
        rw [parseRobots_log w (origin nu ++ "/robots.txt")]
        have hcnt0 : List.count u ([origin nu ++ "/sitemap.xml"] ++
            [origin nu ++ "/robots.txt"]) ≤ 1 := by
          have e1 : List.count u [origin nu ++ "/robots.txt"] = 0 :=
            List.count_eq_zero.mpr (by simp [hru])
          have e2 : List.count u [origin nu ++ "/sitemap.xml"] ≤ 1 := by
            have := List.count_le_length u [origin nu ++ "/sitemap.xml"]
            simpa using this
          rw [List.count_append, e1]
          omega
        rcases o with _ | sm
        · simp only []
          have hmem0 : u ∈ ([origin nu ++ "/sitemap.xml"] ++
              [origin nu ++ "/robots.txt"] : List String) → u ∈ ([] : List String) := by
            intro hm
            simp only [List.mem_append, List.mem_singleton] at hm
            rcases hm with hm | hm
            · exfalso
              subst hm
              rw [checkSitemap_success w (origin nu ++ "/sitemap.xml")
                .standard_location c p hu] at hc1
              simp at hc1
            · exact absurd hm hru
          have h2 := candLoop_count w .robots_txt u c p hu
            (parseSitemapsFromRobotsTxt w (origin nu ++ "/robots.txt")).1.1
            ([], [], [origin nu ++ "/sitemap.xml"] ++ [origin nu ++ "/robots.txt"])
            hcnt0 hmem0
          have h3 := candLoop_count w .standard_location u c p hu
            [origin nu ++ "/sitemap_index.xml", origin nu ++ "/sitemap.xml.gz",
              origin nu ++ "/sitemaps/sitemap.xml"] _ h2.1 h2.2
          exact h3.1
        · have hmem1 : u ∈ ([origin nu ++ "/sitemap.xml"] ++
              [origin nu ++ "/robots.txt"] : List String) →
              u ∈ ([origin nu ++ "/sitemap.xml"] : List String) := by
            intro hm
            simp only [List.mem_append, List.mem_singleton] at hm
            rcases hm with hm | hm
            · simp [hm]
            · exact absurd hm hru
          by_cases hty : sm.type = .sitemap_index
          · simp only [if_pos hty, List.append_nil]
            have h2 := candLoop_count w .robots_txt u c p hu
              (parseSitemapsFromRobotsTxt w (origin nu ++ "/robots.txt")).1.1
              (sm :: [], [origin nu ++ "/sitemap.xml"],
                [origin nu ++ "/sitemap.xml"] ++ [origin nu ++ "/robots.txt"])
              hcnt0 hmem1
            have h3 := candLoop_count w .standard_location u c p hu
              [origin nu ++ "/sitemap_index.xml", origin nu ++ "/sitemap.xml.gz",
                origin nu ++ "/sitemaps/sitemap.xml"] _ h2.1 h2.2
            exact h3.1
          · simp only [if_neg hty]
            have h2 := candLoop_count w .robots_txt u c p hu
              (parseSitemapsFromRobotsTxt w (origin nu ++ "/robots.txt")).1.1
              ([sm], [origin nu ++ "/sitemap.xml"],
                [origin nu ++ "/sitemap.xml"] ++ [origin nu ++ "/robots.txt"])
              hcnt0 hmem1
            have h3 := candLoop_count w .standard_location u c p hu
              [origin nu ++ "/sitemap_index.xml", origin nu ++ "/sitemap.xml.gz",
                origin nu ++ "/sitemaps/sitemap.xml"] _ h2.1 h2.2
            exact h3.1


/-- C5: on any world whose fetch graph contains a sitemap-index reference
cycle (document A lists B and B lists A), the recursive discovery
expansion and the recursive frontier collection both reach a fixed point
at the entry-point recursion budget (any additional budget changes
nothing, so the traversals terminate without infinite recursion), the
frontier collection fetches no sitemap URL twice within one call (its
fetch log has no duplicates), and one discovery call fetches each of A
and B at most once (provided neither is the robots.txt URL, which the
visited set never guards). -/
theorem C5_cycle_termination (w : World) (A B : String) (cA cB : List Char)
    (dA dB : SitemapDoc)
    (hA : worldFetch w A = some (.success cA (some dA))) (hAi : dA.isIndex = true)
    (hAB : B ∈ dA.indexUrls)
    (hB : worldFetch w B = some (.success cB (some dB))) (hBi : dB.isIndex = true)
    (hBA : A ∈ dB.indexUrls) :
    (∀ (rules : CrawlFrontierRules) (extra : Nat) (url : String)
        (visited : List String) (b : Int),
      collectUrlsFromSitemap w rules (discoverFuel w + extra) url visited b =
      collectUrlsFromSitemap w rules (discoverFuel w) url visited b) ∧
    (∀ (extra : Nat) (u : String) (visited : List String),
      discoverFromSitemapIndex w (discoverFuel w + extra) u visited =
      discoverFromSitemapIndex w (discoverFuel w) u visited) ∧
    (∀ (rules : CrawlFrontierRules) (url : String) (b : Int),
      (collectUrlsFromSitemap w rules (discoverFuel w) url [] b).log.Nodup) ∧
    (∀ seed nu, normalizeUrl seed = some nu →
      A ≠ origin nu ++ "/robots.txt" → B ≠ origin nu ++ "/robots.txt" →
      ((discoverSitemaps w seed).2.count A ≤ 1 ∧
        (discoverSitemaps w seed).2.count B ≤ 1)) := by
  refine ⟨?_, ?_, ?_, ?_⟩
  · intro rules extra url visited b
    exact collect_stable w rules url visited b extra
  · intro extra u visited
    exact dfsi_stable w u visited extra
  · intro rules url b
    exact (collect_log_spec w rules (discoverFuel w) url [] b).1
  · intro seed nu hn hra hrb
    constructor
    · apply discover_count w seed A cA (some dA) hA
      intro nu' hn'
      rw [hn] at hn'
      injection hn' with h
      rw [← h]
      exact hra
    · apply discover_count w seed B cB (some dB) hB
      intro nu' hn'
      rw [hn] at hn'
      injection hn' with h
      rw [← h]
      exact hrb

theorem C5_cycle_termination_witness :
    (worldFetch wCycle "https://e.com/sitemap.xml" =
      some (.success (strChars "<sitemapindex>")
        (some ⟨[], true, ["https://e.com/b.xml"]⟩))) ∧
    (⟨[], true, ["https://e.com/b.xml"]⟩ : SitemapDoc).isIndex = true ∧
    "https://e.com/b.xml" ∈ (⟨[], true, ["https://e.com/b.xml"]⟩ : SitemapDoc).indexUrls ∧
    (worldFetch wCycle "https://e.com/b.xml" =
      some (.success (strChars "<sitemapindex>")
        (some ⟨[], true, ["https://e.com/sitemap.xml"]⟩))) ∧
    (⟨[], true, ["https://e.com/sitemap.xml"]⟩ : SitemapDoc).isIndex = true ∧
    "https://e.com/sitemap.xml" ∈
      (⟨[], true, ["https://e.com/sitemap.xml"]⟩ : SitemapDoc).indexUrls ∧
    (collectUrlsFromSitemap wCycle ⟨none, none, none⟩ (discoverFuel wCycle + 7)
        "https://e.com/sitemap.xml" [] 5000 =
      collectUrlsFromSitemap wCycle ⟨none, none, none⟩ (discoverFuel wCycle)
        "https://e.com/sitemap.xml" [] 5000) ∧
    (discoverFromSitemapIndex wCycle (discoverFuel wCycle + 7) "https://e.com/sitemap.xml" [] =
      discoverFromSitemapIndex wCycle (discoverFuel wCycle) "https://e.com/sitemap.xml" []) ∧
    (collectUrlsFromSitemap wCycle ⟨none, none, none⟩ (discoverFuel wCycle)
        "https://e.com/sitemap.xml" [] 5000).log.Nodup ∧
    ((discoverSitemaps wCycle "https://e.com").2.count "https://e.com/sitemap.xml" ≤ 1 ∧
      (discoverSitemaps wCycle "https://e.com").2.count "https://e.com/b.xml" ≤ 1) := by
  have h := C5_cycle_termination wCycle "https://e.com/sitemap.xml" "https://e.com/b.xml"
    (strChars "<sitemapindex>") (strChars "<sitemapindex>")
    ⟨[], true, ["https://e.com/b.xml"]⟩ ⟨[], true, ["https://e.com/sitemap.xml"]⟩
    rfl rfl (List.mem_cons_self _ _) rfl rfl (List.mem_cons_self _ _)
  refine ⟨rfl, rfl, List.mem_cons_self _ _, rfl, rfl, List.mem_cons_self _ _, ?_, ?_, ?_, ?_⟩
  · exact h.1 ⟨none, none, none⟩ 7 "https://e.com/sitemap.xml" [] 5000
  · exact h.2.1 7 "https://e.com/sitemap.xml" []
  · exact h.2.2.1 ⟨none, none, none⟩ "https://e.com/sitemap.xml" 5000
  · exact h.2.2.2 "https://e.com" "https://e.com" rfl (by decide) (by decide)

end SitemapScout
